import Mathlib

/-
Verification of the Parallel_RTFLV multi-part FLV downloader.

The Python source (Parallel_RTFLV.py) is shallowly embedded:
bytes are lists of naturals, streams are byte lists consumed from the
front, Python floats appearing in timing arithmetic are rationals (the
IEEE-754 decode of an 8-byte metadata double is an oracle parameter),
and Python runtime errors (IndexError on body[0]/body[1], struct.error)
are the error branch of an Except value.  Network opens and queue I/O are
abstracted into explicit oracle parameters where noted.
-/

namespace ParallelRTFLV

/-- Worker status codes (class Status). -/
def Status.FAIL : Int := -1

/-- Worker status codes (class Status). -/
def Status.SUCCESS : Int := 1

/-- An FLV tag (class Tag): type byte, reassembled timestamp, body bytes and
the raw on-wire image including the 11-byte tag head and trailing size. -/
structure Tag where
  kind : Nat
  timestamp : Int
  body : List Nat
  data : List Nat
deriving DecidableEq

/-- Tag.AUDIO = 0x8. -/
def Tag.AUDIO : Nat := 8

/-- Tag.VIDEO = 0x9. -/
def Tag.VIDEO : Nat := 9

/-- Tag.METADATA = 0x12. -/
def Tag.METADATA : Nat := 18

/-- Dummy end-of-stream tag type Tag.END = 0xff. -/
def Tag.END : Nat := 255

/-- Tag.is_header.  Accesses body[1] first, then (only when the type matches)
body[0]; a body shorter than two bytes raises IndexError, modelled as the
error branch.  Returns the tag type for an AAC or AVC sequence header,
none otherwise (Python returns Tag.AUDIO, Tag.VIDEO or None). -/
def Tag.is_header (t : Tag) : Except Unit (Option Nat) :=
  match t.body with
  | b0 :: b1 :: _ =>
    if b1 ≠ 0 then Except.ok none
    else if t.kind = Tag.AUDIO ∧ b0 >>> 4 = 10 then Except.ok (some Tag.AUDIO)
    else if t.kind = Tag.VIDEO ∧ b0 &&& 15 = 7 then Except.ok (some Tag.VIDEO)
    else Except.ok none
  | _ => Except.error ()

/-- Tag.is_video_keyframe.  The type test short-circuits, so body[0] is only
read for video tags; a video tag with an empty body raises IndexError. -/
def Tag.is_video_keyframe (t : Tag) : Except Unit Bool :=
  if t.kind = Tag.VIDEO then
    match t.body with
    | b0 :: _ => Except.ok (decide (b0 >>> 4 = 1))
    | [] => Except.error ()
  else Except.ok false

/-- struct.pack("!I", n)[2:]: the low two bytes of n, big-endian. -/
def lenBytes (n : Nat) : List Nat :=
  [n / 256 % 256, n % 256]

/-- Python str.find: index of the first occurrence of needle in hay,
none when absent (Python returns -1). -/
def strFind (hay needle : List Nat) : Option Nat :=
  (List.range (hay.length + 1)).find? (fun i => needle.isPrefixOf (hay.drop i))

/-- Result of Tag.get_metadata_number: the key is absent, or the 8 raw bytes
of the big-endian IEEE-754 double were extracted, or struct.unpack raised
struct.error because fewer than 8 bytes remained after the match. -/
inductive MetaResult where
  | absent
  | value (bytes : List Nat)
  | error
deriving DecidableEq

/-- Tag.get_metadata_number on a given body: search for the two-byte
big-endian length of the key followed by the key itself; on a match skip
len(key) + 3 bytes from the match start and take the 8-byte double.  The
double is kept as its raw bytes (its IEEE-754 reading is injective, and no
claim depends on the numeric value of a well-formed read). -/
def get_metadata_number (body key : List Nat) : MetaResult :=
  match strFind body (lenBytes key.length ++ key) with
  | none => MetaResult.absent
  | some idx =>
    let slice := (body.drop (idx + key.length + 3)).take 8
    if slice.length = 8 then MetaResult.value slice else MetaResult.error

/-- get_metadata_number followed by the numeric decode used by the callers:
dbl is the IEEE-754 reading of the extracted 8 bytes, a struct.error is
propagated. -/
def metaNumber (dbl : List Nat → ℚ) (body key : List Nat) : Except Unit (Option ℚ) :=
  match get_metadata_number body key with
  | MetaResult.absent => Except.ok none
  | MetaResult.value bs => Except.ok (some (dbl bs))
  | MetaResult.error => Except.error ()

/-- struct.pack("!i", v): big-endian two's-complement image of v
(v mod 2^32 written as four bytes); pack raises for v outside the signed
32-bit range, so theorems carry that range as a hypothesis. -/
def pack_i32_be (v : Int) : List Nat :=
  let u := (v % (2 : Int) ^ 32).toNat
  [u / 2 ^ 24 % 256, u / 2 ^ 16 % 256, u / 2 ^ 8 % 256, u % 256]

/-- Tag.write_data: the first 4 raw bytes, then the rotated timestamp
(low three bytes followed by the high byte in the extended slot), then the
raw bytes from offset 8 on.  Returns the written byte string. -/
def Tag.write_data (t : Tag) (offset : Int) : List Nat :=
  let timestamp := pack_i32_be (t.timestamp + offset)
  t.data.take 4 ++ (timestamp.drop 1 ++ timestamp.take 1) ++ t.data.drop 8

/-- StreamPart.read_header: 9-byte FLV header plus the 4-byte zero tag size,
none if fewer than 13 bytes remain. -/
def read_header (s : List Nat) : Option (List Nat × List Nat) :=
  if (s.take 13).length = 13 then some (s.take 13, s.drop 13) else none

/-- StreamPart.get_next_tag: 11-byte head (type, 24-bit size, 24-bit
timestamp, extended-timestamp byte, 24-bit stream id), then the body and the
4-byte trailing size.  The timestamp is the signed 32-bit value whose high
byte is the extended byte masked with 0x7f; with the mask it is always
nonnegative.  Returns the tag and the unread remainder of the stream, or
none on a short read. -/
def get_next_tag (s : List Nat) : Option (Tag × List Nat) :=
  let data := s.take 11
  if data.length = 11 then
    let size := data.getD 1 0 * 65536 + data.getD 2 0 * 256 + data.getD 3 0
    let body := (s.drop 11).take size
    let fullsize := ((s.drop 11).drop size).take 4
    if body.length = size ∧ fullsize.length = 4 then
      some ({ kind := data.getD 0 0,
              timestamp := ((data.getD 7 0 &&& 127) * 2 ^ 24 + data.getD 4 0 * 2 ^ 16 +
                data.getD 5 0 * 2 ^ 8 + data.getD 6 0 : Nat),
              body := body,
              data := data ++ body ++ fullsize }, (s.drop 11).drop (size + 4))
    else none
  else none

/-- Python 2 round: round half away from zero, as an integer. -/
def pyRound (q : ℚ) : Int :=
  if 0 ≤ q then ⌊q + 1 / 2⌋ else ⌈q - 1 / 2⌉

/-- Info message of StreamPart.restart_from_last_keyframe on a stream that
reopens at a timestamp absent from the keyframe map (the formatted payload
is the rounded timeBase offset). -/
inductive RMsg where
  | unknownKeyframe (off : Int)
deriving DecidableEq

/-- sorted(keys, reverse = True): the keyframe timestamps in decreasing
order. -/
def sortedKeysDesc (kfs : List (Int × Nat)) : List Int :=
  List.insertionSort (fun a b => b ≤ a) (kfs.map Prod.fst)

/-- The loop body of StreamPart.restart_from_last_keyframe over a candidate
list.  openS abstracts the online open_stream(start = kf) call: none when
the open fails (its own info/debug messages happen inside open_stream and
are abstracted with it), some off when the stream opens and reports a
timeBase of off milliseconds.  On success the returned pair is the
(unrounded) offset together with the file position seeked to, namely
keyframes[round(offset)]. -/
def restart_go (openS : Int → Option ℚ) (kfs : List (Int × Nat)) :
    List Int → Option (ℚ × Nat) × List RMsg
  | [] => (none, [])
  | kf :: rest =>
    match openS kf with
    | none => restart_go openS kfs rest
    | some off =>
      match kfs.lookup (pyRound off) with
      | some pos => (some (off, pos), [])
      | none =>
        let r := restart_go openS kfs rest
        (r.1, RMsg.unknownKeyframe (pyRound off) :: r.2)

/-- StreamPart.restart_from_last_keyframe: iterate the keyframe timestamps
in decreasing order, return the first aligned reopen, or none. -/
def restart_from_last_keyframe (openS : Int → Option ℚ) (kfs : List (Int × Nat)) :
    Option (ℚ × Nat) × List RMsg :=
  restart_go openS kfs (sortedKeysDesc kfs)

/-- The per-pass mutable state of StreamPart.read_tag_stream together with
the StreamPart fields it touches: self.offset, the local found_first_tag
and duration budget, the two DataStream records (last_timestamp and
header_written for audio and video) and self.real_offset. -/
structure PS where
  offset : Int
  found_first_tag : Bool
  duration : Int
  lastA : Int
  lastV : Int
  headerA : Bool
  headerV : Bool
  real_offset : Option ℚ
deriving DecidableEq

/-- data_streams[kind].last_timestamp; only ever used with kind audio or
video (the dict has exactly those two keys). -/
def PS.last_timestamp (s : PS) (k : Nat) : Int :=
  if k = Tag.AUDIO then s.lastA else s.lastV

/-- data_streams[kind].header_written. -/
def PS.header_written (s : PS) (k : Nat) : Bool :=
  if k = Tag.AUDIO then s.headerA else s.headerV

/-- data_streams[kind].last_timestamp := v. -/
def PS.set_last (s : PS) (k : Nat) (v : Int) : PS :=
  if k = Tag.AUDIO then { s with lastA := v } else { s with lastV := v }

/-- data_streams[kind].header_written := true. -/
def PS.set_header (s : PS) (k : Nat) : PS :=
  if k = Tag.AUDIO then { s with headerA := true } else { s with headerV := true }

/-- Info messages emitted inside read_tag_stream, as constructors carrying
their formatted payload: the end-of-stream report (with the residual
end_time - max(last_timestamps)) and the "Finished but not on expected
keyframe" message. -/
inductive Msg where
  | eos (missing : ℚ)
  | notOnKeyframe
deriving DecidableEq

/-- Lines 353-358 of read_tag_stream: the handled_tag decision.  Sequence
headers of audio/video are handled iff their header is not yet written;
other audio/video tags iff timestamp + offset exceeds the stream's
last_timestamp; tags of any other type are never handled. -/
def handled_tag (s : PS) (t : Tag) : Except Unit Bool :=
  if t.kind = Tag.AUDIO ∨ t.kind = Tag.VIDEO then
    match t.is_header with
    | Except.error e => Except.error e
    | Except.ok (some _) => Except.ok (!PS.header_written s t.kind)
    | Except.ok none =>
        Except.ok (decide (PS.last_timestamp s t.kind < t.timestamp + s.offset))
  else Except.ok false

/-- Lines 360-368 of read_tag_stream: on the first handled non-header tag,
in analysis mode record offset := timestamp and real_offset := timestamp;
in download mode shift offset down by the timestamp and extend the duration
budget by it. -/
def first_tag_update (analyse : Bool) (s : PS) (t : Tag) (handled : Bool) :
    Except Unit PS :=
  if handled then
    match t.is_header with
    | Except.error e => Except.error e
    | Except.ok (some _) => Except.ok s
    | Except.ok none =>
      if s.found_first_tag then Except.ok s
      else if analyse then
        Except.ok { s with found_first_tag := true, offset := t.timestamp,
                           real_offset := some (t.timestamp : ℚ) }
      else
        Except.ok { s with found_first_tag := true, offset := s.offset - t.timestamp,
                           duration := s.duration + t.timestamp }
  else Except.ok s

/-- Lines 370-386 of read_tag_stream: the termination checks, skipped in
analysis mode and for sequence headers.  Returns some infos when the pass
breaks (with the info messages emitted on that path), none when the loop
continues.  Note the gap: timestamp = duration with a non-keyframe tag on a
non-last part matches neither break. -/
def end_check (analyse lastpart : Bool) (end_time : ℚ) (s : PS) (t : Tag) :
    Except Unit (Option (List Msg)) :=
  if analyse then Except.ok none
  else
    match t.is_header with
    | Except.error e => Except.error e
    | Except.ok (some _) => Except.ok none
    | Except.ok none =>
      if t.timestamp = 0 ∧ t.kind = Tag.END ∧ lastpart then
        Except.ok (some [Msg.eos (end_time - ((max s.lastA s.lastV : Int) : ℚ))])
      else if s.duration ≤ t.timestamp then
        match (if t.timestamp = s.duration then t.is_video_keyframe
               else Except.ok false) with
        | Except.error e => Except.error e
        | Except.ok c1 =>
          if c1 || lastpart then Except.ok (some [])
          else if s.duration < t.timestamp then Except.ok (some [Msg.notOnKeyframe])
          else Except.ok none
      else Except.ok none

/-- Lines 388-391 of read_tag_stream: a handled tag updates the stream's
last_timestamp to timestamp + offset (non-headers only) and is yielded; the
writer applies the offset current at the yield. -/
def yield_update (s : PS) (t : Tag) (handled : Bool) :
    Except Unit (PS × Option (Tag × Int)) :=
  if handled then
    match t.is_header with
    | Except.error e => Except.error e
    | Except.ok (some _) => Except.ok (s, some (t, s.offset))
    | Except.ok none =>
      let s2 := PS.set_last s t.kind (t.timestamp + s.offset)
      Except.ok (s2, some (t, s2.offset))
  else Except.ok (s, none)

/-- Result of one read_tag_stream loop iteration: keep looping (with an
optional yielded tag paired with the offset to write it at), or break. -/
inductive StepRes where
  | go (s : PS) (out : Option (Tag × Int)) (infos : List Msg)
  | halt (s : PS) (infos : List Msg)
deriving DecidableEq

/-- One iteration of the read_tag_stream loop on an already-parsed tag, in
the Python evaluation order: handled decision, first-tag block, termination
checks, then update-and-yield. -/
def rts_step (analyse lastpart : Bool) (end_time : ℚ) (s : PS) (t : Tag) :
    Except Unit StepRes :=
  match handled_tag s t with
  | Except.error e => Except.error e
  | Except.ok handled =>
    match first_tag_update analyse s t handled with
    | Except.error e => Except.error e
    | Except.ok s1 =>
      match end_check analyse lastpart end_time s1 t with
      | Except.error e => Except.error e
      | Except.ok (some infos) => Except.ok (StepRes.halt s1 infos)
      | Except.ok none =>
        match yield_update s1 t handled with
        | Except.error e => Except.error e
        | Except.ok (s2, out) => Except.ok (StepRes.go s2 out [])

/-- The consumer's header bookkeeping interleaved with the generator
(analyse line 419-420 and save_stream_part line 544-545): after a yielded
sequence header is written, its header_written flag is set before the
generator runs again. -/
def consume (s : PS) (t : Tag) : PS :=
  match t.is_header with
  | Except.ok (some k) => PS.set_header s k
  | _ => s

/-- Result of a full streaming pass: final state, the yielded tags with the
offset each was written at, the info messages, and whether the pass broke
cleanly (true) or ran out of input, the premature-close path on which the
generator yields a final None (false). -/
structure RunRes where
  state : PS
  writes : List (Tag × Int)
  msgs : List Msg
  clean : Bool
deriving DecidableEq

/-- A full pass of read_tag_stream over a list of parsed tags, interleaved
with the consumer's header_written updates.  The consumer's keyframe map
and progress reports do not feed back into the loop and are modelled where
needed (analyse_scan). -/
def rts_run (analyse lastpart : Bool) (end_time : ℚ) :
    PS → List Tag → Except Unit RunRes
  | s, [] => Except.ok { state := s, writes := [], msgs := [], clean := false }
  | s, t :: rest =>
    match rts_step analyse lastpart end_time s t with
    | Except.error e => Except.error e
    | Except.ok (StepRes.halt s1 infos) =>
        Except.ok { state := s1, writes := [], msgs := infos, clean := true }
    | Except.ok (StepRes.go s1 out infos) =>
      let s2 := match out with
        | some (w, _) => consume s1 w
        | none => s1
      match rts_run analyse lastpart end_time s2 rest with
      | Except.error e => Except.error e
      | Except.ok r =>
          Except.ok { state := r.state, writes := out.toList ++ r.writes,
                      msgs := infos ++ r.msgs, clean := r.clean }

/-- Media tags that are not sequence headers: the tags subject to the
last_timestamp filter. -/
def is_media_non_header (t : Tag) : Bool :=
  (t.kind == Tag.AUDIO || t.kind == Tag.VIDEO) &&
    (match t.is_header with
     | Except.ok none => true
     | _ => false)

/-- The adjusted (as-written) timestamps of the non-header tags of one media
kind among the writes of a pass. -/
def adjWrites (k : Nat) (ws : List (Tag × Int)) : List Int :=
  (ws.filter (fun w => w.1.kind == k && is_media_non_header w.1)).map
    (fun w => w.1.timestamp + w.2)

/-- The timestamp of the first non-header media tag of a tag stream. -/
def first_media_ts (tags : List Tag) : Option Int :=
  (tags.find? is_media_non_header).map Tag.timestamp

/-- The state at entry of a download pass of save_stream_part
(lines 497-499 and 530-533 plus the generator's duration initialisation):
real_offset, when still None, becomes the timeBase-derived offset; the
integer offset is its rounding; the per-pass last timestamps are reset to
-1; the budget is int(round(end_time - offset)). -/
def fresh_pass (lastpart headerA headerV : Bool) (timeBase_ms end_time : ℚ)
    (tags : List Tag) : Except Unit RunRes :=
  let offset : Int := pyRound timeBase_ms
  rts_run false lastpart end_time
    { offset := offset, found_first_tag := false,
      duration := pyRound (end_time - (offset : ℚ)),
      lastA := -1, lastV := -1, headerA := headerA, headerV := headerV,
      real_offset := some timeBase_ms } tags

/-- Messages a worker puts on its output queue, as the attribute bag of
put_message restricted to the keys the source uses (part is added to every
message and is left implicit here). -/
structure WMsg where
  debug : Option String := none
  info : Option String := none
  status : Option Int := none
  need_start : Option Bool := none
  need_end : Option Bool := none
  duration : Option ℚ := none
  filesize : Option (Option ℚ) := none
  progress : Option ℚ := none
deriving DecidableEq

/-- A message with only a debug key. -/
def WMsg.mkDebug (s : String) : WMsg := { debug := some s }

/-- A message with only an info key. -/
def WMsg.mkInfo (s : String) : WMsg := { info := some s }

/-- A message with an info key and a status key. -/
def WMsg.mkInfoStatus (s : String) (st : Int) : WMsg :=
  { info := some s, status := some st }

/-- A message with only a need_start key. -/
def WMsg.mkNeedStart (b : Bool) : WMsg := { need_start := some b }

/-- The byte-count position after the FLV header of a part file. -/
def headerLen : Nat := 13

/-- The scan loop of StreamPart.analyse (lines 416-422): pull tags with
get_next_tag, run them through the generator step with analyse = True,
and for each yielded tag mark a written sequence header or record a video
keyframe at the file position where its raw data starts (tell() minus
len(data)).  pos is the file position before the next read.  A parse
failure makes the generator yield None, which the loop skips, ending the
scan. -/
def analyse_scan (lp : Bool) : List Nat → Nat → PS → List (Int × Nat) →
    Except Unit (PS × List (Int × Nat))
  | bytes, pos, s, kfs =>
    match h : get_next_tag bytes with
    | none => Except.ok (s, kfs)
    | some (t, rest) =>
      match rts_step true lp 0 s t with
      | Except.error e => Except.error e
      | Except.ok (StepRes.halt s1 _) => Except.ok (s1, kfs)
      | Except.ok (StepRes.go s1 out _) =>
        match out with
        | none => analyse_scan lp rest (pos + t.data.length) s1 kfs
        | some (w, _) =>
          match w.is_header with
          | Except.error e => Except.error e
          | Except.ok (some k) =>
              analyse_scan lp rest (pos + t.data.length) (PS.set_header s1 k) kfs
          | Except.ok none =>
            match w.is_video_keyframe with
            | Except.error e => Except.error e
            | Except.ok true =>
                analyse_scan lp rest (pos + t.data.length) s1
                  (kfs ++ [(w.timestamp, pos + t.data.length - w.data.length)])
            | Except.ok false => analyse_scan lp rest (pos + t.data.length) s1 kfs
  termination_by bytes => bytes.length
  decreasing_by
    all_goals
      simp only [get_next_tag] at h
      split at h
      · rename_i h11
        rw [List.length_take] at h11
        split at h
        · simp only [Option.some.injEq, Prod.mk.injEq] at h
          obtain ⟨-, h2⟩ := h
          rw [← h2]
          simp only [List.drop_drop, List.length_drop]
          omega
        · cases h
      · cases h

/-- The initial per-part state of a first-part analyse run: self.offset = 0,
DataStream headers unwritten (first part), last timestamps -1, and the
generator's duration = int(round(0 - 0)). -/
def initAnalysePS : PS :=
  { offset := 0, found_first_tag := false, duration := pyRound (0 - (0 : ℚ)),
    lastA := -1, lastV := -1, headerA := false, headerV := false,
    real_offset := none }

/-- Strings of the messages on the analyse/open path. -/
def incompleteHeaderStr : String := "Incomplete FLV Header"

/-- Debug text after a successful header read. -/
def readHeaderStr : String := "Read FLV header"

/-- Error text when a leading metadata tag is missing or mistyped. -/
def missingMetadataStr : String := "Missing metadata"

/-- Error text when the second metadata tag lacks timeBase. -/
def missingTimeBaseStr : String := "Metadata missing timeBase key"

/-- Debug text after the timeBase is found. -/
def foundTimebaseStr : String := "Found timebase"

/-- Info text when metadata tag 1 lacks the duration key. -/
def missingDurationStr : String := "Metadata missing duration key"

/-- Info text of the resume message. -/
def resumingStr : String := "Resuming from"

/-- Info text of the unknown-keyframe message. -/
def unknownKeyframeStr : String := "Stream starts at unknown keyframe"

/-- The metadata key bytes of "duration". -/
def durationKey : List Nat := [100, 117, 114, 97, 116, 105, 111, 110]

/-- The metadata key bytes of "filesize". -/
def filesizeKey : List Nat := [102, 105, 108, 101, 115, 105, 122, 101]

/-- The metadata key bytes of "timeBase". -/
def timeBaseKey : List Nat := [116, 105, 109, 101, 66, 97, 115, 101]

/-- StreamPart.open_stream with analyse = True on the first part, reading
from the part file bytes: FLV header, two metadata-typed tags, then the
timeBase number of the second tag scaled to milliseconds.  Failures emit
their message under the debug key (error_key = "debug" when analysing) and
produce none; messages are returned alongside.  On success returns the
header bytes, both tags, the offset and the unread remainder. -/
def open_stream_analyse_fp (dbl : List Nat → ℚ) (file : List Nat) :
    Except Unit (List WMsg × Option (List Nat × Tag × Tag × ℚ × List Nat)) :=
  match read_header file with
  | none => Except.ok ([WMsg.mkDebug incompleteHeaderStr], none)
  | some (hdr, r1) =>
    match get_next_tag r1 with
    | none =>
        Except.ok ([WMsg.mkDebug readHeaderStr, WMsg.mkDebug missingMetadataStr], none)
    | some (t1, r2) =>
      if t1.kind ≠ Tag.METADATA then
        Except.ok ([WMsg.mkDebug readHeaderStr, WMsg.mkDebug missingMetadataStr], none)
      else
        match get_next_tag r2 with
        | none =>
            Except.ok ([WMsg.mkDebug readHeaderStr, WMsg.mkDebug missingMetadataStr],
              none)
        | some (t2, r3) =>
          if t2.kind ≠ Tag.METADATA then
            Except.ok ([WMsg.mkDebug readHeaderStr, WMsg.mkDebug missingMetadataStr],
              none)
          else
            match metaNumber dbl t2.body timeBaseKey with
            | Except.error e => Except.error e
            | Except.ok none =>
                Except.ok ([WMsg.mkDebug readHeaderStr,
                  WMsg.mkDebug missingTimeBaseStr], none)
            | Except.ok (some offs) =>
                Except.ok ([WMsg.mkDebug readHeaderStr, WMsg.mkDebug foundTimebaseStr],
                  some (hdr, t1, t2, offs * 1000, r3))

/-- StreamPart.analyse for the first part (resume analysis of the existing
part file): open in analyse mode; on success check metadata tag 1 for
duration — if absent put the info + FAIL message and return at once —
otherwise report filesize and duration and scan the rest of the file for
headers and keyframes.  Returns the messages put, the state and the
keyframe map. -/
def analyse_fp (dbl : List Nat → ℚ) (lp : Bool) (file : List Nat) :
    Except Unit (List WMsg × PS × List (Int × Nat)) :=
  match open_stream_analyse_fp dbl file with
  | Except.error e => Except.error e
  | Except.ok (msgs, none) => Except.ok (msgs, initAnalysePS, [])
  | Except.ok (msgs, some (_hdr, t1, t2, _offs, rest)) =>
    match metaNumber dbl t1.body durationKey with
    | Except.error e => Except.error e
    | Except.ok none =>
        Except.ok (msgs ++ [WMsg.mkInfoStatus missingDurationStr Status.FAIL],
          initAnalysePS, [])
    | Except.ok (some d) =>
      match metaNumber dbl t1.body filesizeKey with
      | Except.error e => Except.error e
      | Except.ok fs =>
        match analyse_scan lp rest (headerLen + t1.data.length + t2.data.length)
            initAnalysePS [] with
        | Except.error e => Except.error e
        | Except.ok (s, kfs) =>
            Except.ok (msgs ++ [{ filesize := some fs }, { duration := some d }], s, kfs)

/-- save_stream_part for the first part with resume = True, up to and
including the need_start message (lines 457-479): run analyse, attempt
restart_from_last_keyframe, and emit need_start — false on both branches
since a first part that cannot resume sets start_time := 0.  Returns the
messages the worker put on its queue so far. -/
def save_stream_part_intro_fp (dbl : List Nat → ℚ) (openS : Int → Option ℚ)
    (lp : Bool) (file : List Nat) : Except Unit (List WMsg) :=
  match analyse_fp dbl lp file with
  | Except.error e => Except.error e
  | Except.ok (amsgs, _s, kfs) =>
    let rr := restart_from_last_keyframe openS kfs
    let rmsgs := rr.2.map (fun m => match m with
      | RMsg.unknownKeyframe _ => WMsg.mkInfo unknownKeyframeStr)
    match rr.1 with
    | none => Except.ok (amsgs ++ rmsgs ++ [WMsg.mkNeedStart false])
    | some _ =>
        Except.ok (amsgs ++ rmsgs ++ [WMsg.mkInfo resumingStr, WMsg.mkNeedStart false])

/-- The constant-zero IEEE-754 decode oracle used by concrete scenarios
whose claims do not depend on the decoded number. -/
def dbl0 : List Nat → ℚ := fun _ => 0

/-- An open oracle under which every online reopen fails. -/
def openS0 : Int → Option ℚ := fun _ => none

/-- Metadata tag 1 of the C9 scenario file: kind 0x12, a 1-byte body
without the duration key. -/
def c9tag1 : List Nat :=
  [18, 0, 0, 1, 0, 0, 0, 0, 0, 0, 0] ++ [0] ++ [0, 0, 0, 0]

/-- Body of metadata tag 2 of the C9 scenario file: the two-byte length 8,
the key "timeBase", one type byte and an 8-byte double. -/
def c9tag2body : List Nat :=
  [0, 8] ++ timeBaseKey ++ [0] ++ [0, 0, 0, 0, 0, 0, 0, 0]

/-- Metadata tag 2 of the C9 scenario file: kind 0x12 with the timeBase
body. -/
def c9tag2 : List Nat :=
  [18, 0, 0, 19, 0, 0, 0, 0, 0, 0, 0] ++ c9tag2body ++ [0, 0, 0, 0]

/-- The C9 scenario part file: a 13-byte header, then the two metadata
tags, the first of which lacks the duration key. -/
def c9file : List Nat := List.replicate 13 0 ++ c9tag1 ++ c9tag2

/-- Messages a coordinator receives from workers, as the attribute bag with
the keys save_stream reads in its duration-waiting loop. -/
structure CoordMsg where
  part : Nat
  debug : Option String := none
  info : Option String := none
  filesize : Option ℚ := none
  duration : Option ℚ := none
  status : Option Int := none
deriving DecidableEq

/-- Observable actions of the coordinator: signal emissions, the
stop_all_parts broadcast of FAIL, and thread starts of further parts
(start_part_thread abstracted to the start event, with file-open failures
out of scope of the modelled claims). -/
inductive CoordEvent where
  | emitDebug (part : Option Nat) (m : String)
  | emitInfo (part : Option Nat) (m : String)
  | emitGotFilesize (v : ℚ)
  | emitGotDuration (v : ℚ)
  | emitPartFailed (p : Nat)
  | emitPartFinished (p : Nat)
  | stopAllParts
  | startPart (p : Nat)
deriving DecidableEq

/-- The default emissions of wait_for_message: the debug and info keys of
the message are emitted with the message's part. -/
def wfm_events (m : CoordMsg) : List CoordEvent :=
  (match m.debug with
   | some s => [CoordEvent.emitDebug (some m.part) s]
   | none => []) ++
  (match m.info with
   | some s => [CoordEvent.emitInfo (some m.part) s]
   | none => [])

/-- Info text of the pre-duration abort. -/
def failedDurationStr : String := "Failed to get duration. Aborting"

/-- Debug text on finding the filesize. -/
def foundFilesizeStr : String := "Found filesize"

/-- Debug text on finding the duration. -/
def foundDurationStr : String := "Found duration"

/-- Debug text before starting the remaining parts. -/
def startingPartsStr : String := "Starting parts"

/-- The duration-waiting loop of MultiPart_Downloader.save_stream
(lines 871-898) over the queued messages: any message with a status key
aborts (info, stop_all_parts, return with no duration); a filesize key is
reported; a duration key ends the loop with effective duration
min(duration, cap), after which parts 1..numparts-1 are started.  Returns
the events in order and the effective duration, none on abort or if the
messages run out (the real loop would block). -/
def duration_phase (numparts : Nat) (cap : ℚ) :
    List CoordMsg → List CoordEvent × Option ℚ
  | [] => ([], none)
  | m :: rest =>
    if m.status.isSome then
      (wfm_events m ++ [CoordEvent.emitInfo none failedDurationStr,
        CoordEvent.stopAllParts], none)
    else
      let evs := wfm_events m ++
        (match m.filesize with
         | some f => [CoordEvent.emitDebug none foundFilesizeStr,
             CoordEvent.emitGotFilesize f]
         | none => [])
      match m.duration with
      | some d =>
        (evs ++ [CoordEvent.emitDebug none foundDurationStr,
           CoordEvent.emitGotDuration (min d cap),
           CoordEvent.emitDebug none startingPartsStr] ++
         (List.range (numparts - 1)).map (fun i => CoordEvent.startPart (i + 1)),
         some (min d cap))
      | none =>
        let r := duration_phase numparts cap rest
        (evs ++ r.1, r.2)

/-- The per-part fields the coordinator reads in the need_start dispatch:
need_start (already reported by every part), and the start_time and
real_offset values stored by the part. -/
structure PartState where
  need_start : Bool
  start_time : ℚ
  real_offset : ℚ
deriving DecidableEq

instance : Inhabited PartState :=
  ⟨{ need_start := false, start_time := 0, real_offset := 0 }⟩

/-- itertools.groupby(enumerate(parts), need_start) restricted to the runs
with need_start = True: each run as (first index, length).  The first
argument is the index of the head of the remaining list, the second the
open run. -/
def trueRunsAux : Nat → Option (Nat × Nat) → List Bool → List (Nat × Nat)
  | _, none, [] => []
  | _, some r, [] => [r]
  | i, none, true :: bs => trueRunsAux (i + 1) (some (i, 1)) bs
  | i, some (st, len), true :: bs => trueRunsAux (i + 1) (some (st, len + 1)) bs
  | i, none, false :: bs => trueRunsAux (i + 1) none bs
  | i, some r, false :: bs => r :: trueRunsAux (i + 1) none bs

/-- The maximal runs of consecutive true flags, as (first index, length). -/
def trueRuns (bs : List Bool) : List (Nat × Nat) :=
  trueRunsAux 0 none bs

/-- The start times sent for one run of parts needing a start (lines
929-947): with left the first index of the run and rightExcl the index one
past it, left_time is 0 for a run starting at part 0 and otherwise the
start_time of the part before; right_time is duration*1000 for a run ending
at the last part and otherwise the real_offset of the part after; part
left + i receives left_time + (i + 1) * part_duration where part_duration
divides the interval by rightExcl - left + 1. -/
def run_sends (numparts : Nat) (dur : ℚ) (parts : List PartState)
    (run : Nat × Nat) : List (Nat × ℚ) :=
  let left := run.1
  let rightExcl := run.1 + run.2
  let left_time : ℚ := if left = 0 then 0 else (parts.getD (left - 1) default).start_time
  let right_time : ℚ :=
    if rightExcl = numparts then dur * 1000
    else (parts.getD rightExcl default).real_offset
  let part_duration := (right_time - left_time) / (((rightExcl : ℚ) - (left : ℚ)) + 1)
  (List.range run.2).map (fun i => (left + i, left_time + ((i : ℚ) + 1) * part_duration))

/-- The complete need_start dispatch (lines 921-947) once every part has
reported: the start times sent, as (part index, value) pairs in order. -/
def assign_starts (numparts : Nat) (dur : ℚ) (parts : List PartState) :
    List (Nat × ℚ) :=
  (trueRuns (parts.map PartState.need_start)).flatMap (run_sends numparts dur parts)

/-- A maximal run of consecutive parts with need_start = true: every part
in [left..right] needs a start, and the parts adjacent to the run (when
they exist) do not. -/
def isRun (parts : List PartState) (left right : Nat) : Prop :=
  left ≤ right ∧ right < parts.length ∧
  (∀ j, left ≤ j → j ≤ right → (parts.getD j default).need_start = true) ∧
  (left = 0 ∨ (parts.getD (left - 1) default).need_start = false) ∧
  (right = parts.length - 1 ∨ (parts.getD (right + 1) default).need_start = false)

/-- The run boundary value L of claim C4. -/
def startL (parts : List PartState) (left : Nat) : ℚ :=
  if left = 0 then 0 else (parts.getD (left - 1) default).start_time

/-- The run boundary value R of claim C4. -/
def startR (dur : ℚ) (parts : List PartState) (right : Nat) : ℚ :=
  if right = parts.length - 1 then dur * 1000
  else (parts.getD (right + 1) default).real_offset

/-- Concrete tag used as the C5 witness input. -/
def c5tag : Tag :=
  { kind := 8, timestamp := 256, body := [],
    data := [8, 0, 0, 2, 9, 9, 9, 9, 0, 0, 0, 7, 7, 0, 0, 0, 17] }

/-- Concrete open oracle for the C7 witness: only a reopen at 3 succeeds,
reporting timeBase offset 3. -/
def openS1 : Int → Option ℚ := fun kf => if kf = 3 then some 3 else none

/-- Concrete keyframe map for the C7 witness. -/
def kfs1 : List (Int × Nat) := [(5, 100), (3, 50)]

/-- The concrete pre-duration terminal message of the C3 counterexample:
part 0 reports FAIL before any duration message. -/
def c3msg : CoordMsg := { part := 0, status := some Status.FAIL }

/-- Concrete part list for the C4 witness: only part 1 needs a start;
part 0 resumed with start_time 10 and part 2 discovered real_offset 40. -/
def parts2 : List PartState :=
  [{ need_start := false, start_time := 10, real_offset := 0 },
   { need_start := true, start_time := 0, real_offset := 0 },
   { need_start := false, start_time := 0, real_offset := 40 }]

/-- The state carried by either step outcome. -/
def StepRes.state : StepRes → PS
  | StepRes.go s _ _ => s
  | StepRes.halt s _ => s

/-- Concrete streaming state of the C2 counterexample: mid-pass (first tag
found), budget 5 reached. -/
def c2state : PS :=
  { offset := 0, found_first_tag := true, duration := 5, lastA := -1,
    lastV := -1, headerA := true, headerV := true, real_offset := none }

/-- Concrete audio tag of the C2 counterexample: a non-keyframe tag whose
timestamp equals the budget. -/
def c2tag : Tag := { kind := 8, timestamp := 5, body := [32, 1], data := [] }

/-- Concrete audio tag of the C8 counterexample: its on-wire timestamp 7
differs from the requested/reported timeBase. -/
def c8tag : Tag := { kind := 8, timestamp := 7, body := [32, 1], data := [] }

/-- The result of the concrete one-tag fresh download pass at timeBase 5,
end_time 1000: the first-tag block shifts the offset to 5 - 7 and extends
the budget, while real_offset stays at the timeBase value 5. -/
def c8run : RunRes :=
  { state := { offset := -2, found_first_tag := true, duration := 1002,
               lastA := 5, lastV := -1, headerA := false, headerV := false,
               real_offset := some 5 },
    writes := [(c8tag, -2)], msgs := [], clean := false }

/-- Concrete byte stream of the C10 witness: an end-sentinel tag head
declaring body size 0, followed by the 4 trailing-size bytes. -/
def c10bytes : List Nat := [255, 0, 0, 0, 0, 0, 0, 0, 0, 0, 0, 0, 0, 0, 0]

/-- The tag get_next_tag parses from c10bytes: kind 0xff with empty body. -/
def c10tag : Tag :=
  { kind := 255, timestamp := 0, body := [],
    data := [255, 0, 0, 0, 0, 0, 0, 0, 0, 0, 0, 0, 0, 0, 0] }

/-- A plain download-mode state for the C10 witness. -/
def c10state : PS :=
  { offset := 0, found_first_tag := false, duration := 0, lastA := -1,
    lastV := -1, headerA := false, headerV := false, real_offset := none }

/-- C5: Tag.write_data rewrites exactly bytes 4..7: bytes 4..6 get the low
three bytes (big-endian) of the 32-bit image of timestamp + offset, byte 7
(the extended-timestamp slot) gets its high byte, and every byte outside
4..7 is the corresponding byte of the raw tag data. -/
theorem c5_write_data (t : Tag) (d : Int)
    (h8 : 8 ≤ t.data.length)
    (hlo : -(2 ^ 31) ≤ t.timestamp + d) (hhi : t.timestamp + d < 2 ^ 31) :
    (Tag.write_data t d).length = t.data.length ∧
    (∀ i, i < 4 ∨ 8 ≤ i → (Tag.write_data t d).getD i 0 = t.data.getD i 0) ∧
    (Tag.write_data t d).getD 4 0 = ((t.timestamp + d) % 2 ^ 32).toNat / 2 ^ 16 % 256 ∧
    (Tag.write_data t d).getD 5 0 = ((t.timestamp + d) % 2 ^ 32).toNat / 2 ^ 8 % 256 ∧
    (Tag.write_data t d).getD 6 0 = ((t.timestamp + d) % 2 ^ 32).toNat % 256 ∧
    (Tag.write_data t d).getD 7 0 = ((t.timestamp + d) % 2 ^ 32).toNat / 2 ^ 24 % 256 := by
  have hw : Tag.write_data t d =
      (t.data.take 4 ++
        [((t.timestamp + d) % 2 ^ 32).toNat / 2 ^ 16 % 256,
         ((t.timestamp + d) % 2 ^ 32).toNat / 2 ^ 8 % 256,
         ((t.timestamp + d) % 2 ^ 32).toNat % 256,
         ((t.timestamp + d) % 2 ^ 32).toNat / 2 ^ 24 % 256]) ++ t.data.drop 8 := by
    rw [Tag.write_data]
    simp [pack_i32_be, List.append_assoc]
  have htl : (t.data.take 4).length = 4 := by
    simp [List.length_take]
    omega
  have hl48 : (t.data.take 4 ++
      [((t.timestamp + d) % 2 ^ 32).toNat / 2 ^ 16 % 256,
       ((t.timestamp + d) % 2 ^ 32).toNat / 2 ^ 8 % 256,
       ((t.timestamp + d) % 2 ^ 32).toNat % 256,
       ((t.timestamp + d) % 2 ^ 32).toNat / 2 ^ 24 % 256]).length = 8 := by
    simp [htl]
  refine ⟨?_, ?_, ?_, ?_, ?_, ?_⟩
  · rw [hw]
    simp only [List.length_append, hl48, List.length_drop]
    omega
  · intro i hi
    rw [hw, List.getD_eq_getElem?_getD, List.getD_eq_getElem?_getD, List.getElem?_append]
    rcases hi with hi | hi
    · rw [if_pos (by rw [hl48]; omega), List.getElem?_append, if_pos (by rw [htl]; omega),
        List.getElem?_take, if_pos (by omega)]
    · rw [if_neg (by rw [hl48]; omega), hl48, List.getElem?_drop]
      have h9 : 8 + (i - 8) = i := by omega
      rw [h9]
  all_goals
    rw [hw, List.getD_eq_getElem?_getD, List.getElem?_append, if_pos (by rw [hl48]; omega),
      List.getElem?_append_right (by rw [htl]; try omega), htl]
    simp

/-- C5 witness: write_data evaluated at a concrete tag. -/
theorem c5_write_data_witness :
    (Tag.write_data c5tag 3).length = c5tag.data.length ∧
    (Tag.write_data c5tag 3).getD 5 0 = 1 := by
  have h := c5_write_data c5tag 3 (by decide) (by decide) (by decide)
  refine ⟨h.1, ?_⟩
  rw [h.2.2.2.1]
  decide

/-- C6: get_metadata_number returns absent exactly when the two-byte
big-endian length of the key followed by the key occurs nowhere in the
body; and when the first match is at index i with at least 8 bytes
available one type-tag byte past the end of the matched bytes (that is,
len(key) + 3 bytes past the match start), it returns exactly those 8
bytes, the big-endian IEEE-754 double stored there. -/
theorem c6_get_metadata_number (body key : List Nat) :
    (get_metadata_number body key = MetaResult.absent ↔
      ∀ i, ¬ (lenBytes key.length ++ key) <+: body.drop i) ∧
    (lenBytes key.length ++ key).length + 1 = key.length + 3 ∧
    (∀ i, strFind body (lenBytes key.length ++ key) = some i →
      i + key.length + 3 + 8 ≤ body.length →
      get_metadata_number body key =
        MetaResult.value ((body.drop (i + key.length + 3)).take 8)) := by
  refine ⟨⟨?_, ?_⟩, by simp [lenBytes], ?_⟩
  · intro h i
    have hn : strFind body (lenBytes key.length ++ key) = none := by
      cases hfind : strFind body (lenBytes key.length ++ key) with
      | none => rfl
      | some j =>
        simp only [get_metadata_number, hfind] at h
        split at h <;> simp at h
    rw [strFind, List.find?_eq_none] at hn
    intro hp
    by_cases hi : i < body.length + 1
    · exact hn i (List.mem_range.mpr hi) (List.isPrefixOf_iff_prefix.mpr hp)
    · have hdrop : body.drop i = [] := by
        apply List.drop_eq_nil_iff.mpr
        omega
      rw [hdrop] at hp
      have hle := hp.length_le
      simp [lenBytes] at hle
  · intro h
    have hn : strFind body (lenBytes key.length ++ key) = none := by
      rw [strFind, List.find?_eq_none]
      intro i _
      intro hb
      exact h i (List.isPrefixOf_iff_prefix.mp hb)
    simp only [get_metadata_number, hn]
  · intro i hfind hlen
    have hsl : ((body.drop (i + key.length + 3)).take 8).length = 8 := by
      simp [List.length_take, List.length_drop]
      omega
    simp only [get_metadata_number, hfind]
    rw [if_pos hsl]

/-- C6 witness: a body holding key "ab" with the double bytes 1..8 right
after the type-tag byte. -/
theorem c6_get_metadata_number_witness :
    get_metadata_number [7, 0, 2, 97, 98, 0, 1, 2, 3, 4, 5, 6, 7, 8, 99] [97, 98] =
      MetaResult.value [1, 2, 3, 4, 5, 6, 7, 8] := by
  have h := (c6_get_metadata_number [7, 0, 2, 97, 98, 0, 1, 2, 3, 4, 5, 6, 7, 8, 99]
    [97, 98]).2.2 1 (by decide) (by decide)
  rw [h]
  decide

/-- restart_go succeeds only on a candidate whose reopened offset rounds to
a key of the map, and the seek position is that key's entry. -/
theorem restart_go_some (openS : Int → Option ℚ) (kfs : List (Int × Nat)) :
    ∀ l off pos, (restart_go openS kfs l).1 = some (off, pos) →
      (∃ kf ∈ l, openS kf = some off) ∧ kfs.lookup (pyRound off) = some pos := by
  intro l
  induction l with
  | nil => intro off pos h; simp [restart_go] at h
  | cons kf rest ih =>
    intro off pos h
    rw [restart_go] at h
    cases hop : openS kf with
    | none =>
      simp only [hop] at h
      obtain ⟨⟨kf', hkf', h1⟩, h2⟩ := ih off pos h
      exact ⟨⟨kf', List.mem_cons_of_mem _ hkf', h1⟩, h2⟩
    | some o =>
      simp only [hop] at h
      cases hlk : kfs.lookup (pyRound o) with
      | none =>
        simp only [hlk] at h
        obtain ⟨⟨kf', hkf', h1⟩, h2⟩ := ih off pos h
        exact ⟨⟨kf', List.mem_cons_of_mem _ hkf', h1⟩, h2⟩
      | some p =>
        simp only [hlk, Option.some.injEq, Prod.mk.injEq] at h
        obtain ⟨ho, hp⟩ := h
        subst ho hp
        exact ⟨⟨kf, List.mem_cons_self _ _, hop⟩, hlk⟩

/-- restart_go returns none exactly when every candidate either fails to
open or reopens at an offset whose rounding is not a key of the map. -/
theorem restart_go_none (openS : Int → Option ℚ) (kfs : List (Int × Nat)) :
    ∀ l, (restart_go openS kfs l).1 = none ↔
      ∀ kf ∈ l, openS kf = none ∨
        ∃ off, openS kf = some off ∧ kfs.lookup (pyRound off) = none := by
  intro l
  induction l with
  | nil => simp [restart_go]
  | cons kf rest ih =>
    rw [restart_go]
    cases hop : openS kf with
    | none =>
      simp only [List.mem_cons]
      constructor
      · intro h x hx
        rcases hx with hx | hx
        · subst hx; exact Or.inl hop
        · exact (ih.mp h) x hx
      · intro h
        exact ih.mpr (fun x hx => h x (Or.inr hx))
    | some o =>
      cases hlk : kfs.lookup (pyRound o) with
      | none =>
        simp only [hlk, List.mem_cons]
        constructor
        · intro h x hx
          rcases hx with hx | hx
          · subst hx; exact Or.inr ⟨o, hop, hlk⟩
          · exact (ih.mp h) x hx
        · intro h
          exact ih.mpr (fun x hx => h x (Or.inr hx))
      | some p =>
        simp only [hlk, List.mem_cons]
        constructor
        · intro h
          simp at h
        · intro h
          rcases h kf (Or.inl rfl) with hc | ⟨off, hoff, hl⟩
          · rw [hc] at hop; cases hop
          · rw [hoff] at hop
            cases hop
            rw [hl] at hlk
            cases hlk

/-- Every misaligned reopen before exhaustion leaves its unknown-keyframe
info among the messages of a failed restart. -/
theorem restart_go_msgs (openS : Int → Option ℚ) (kfs : List (Int × Nat)) :
    ∀ l msgs, restart_go openS kfs l = (none, msgs) →
      ∀ kf ∈ l, ∀ off, openS kf = some off → kfs.lookup (pyRound off) = none →
        RMsg.unknownKeyframe (pyRound off) ∈ msgs := by
  intro l
  induction l with
  | nil =>
    intro msgs h kf hkf
    simp at hkf
  | cons kf0 rest ih =>
    intro msgs h kf hkf off hoff hlk
    rw [restart_go] at h
    rcases List.mem_cons.mp hkf with he | hm
    · subst he
      simp only [hoff, hlk, Prod.mk.injEq] at h
      rw [← h.2]
      exact List.mem_cons_self _ _
    · cases hop : openS kf0 with
      | none =>
        simp only [hop] at h
        exact ih msgs h kf hm off hoff hlk
      | some o =>
        simp only [hop] at h
        cases hlk0 : kfs.lookup (pyRound o) with
        | some p =>
          simp only [hlk0] at h
          simp at h
        | none =>
          simp only [hlk0, Prod.mk.injEq] at h
          obtain ⟨h1, h2⟩ := h
          have hrest : restart_go openS kfs rest =
              (none, (restart_go openS kfs rest).2) := by
            rw [← h1]
          rw [← h2]
          exact List.mem_cons_of_mem _ (ih _ hrest kf hm off hoff hlk)

/-- C7: keyframe resume iterates the keyframe timestamps in strictly
decreasing order; an attempt succeeds exactly on alignment, i.e. when the
reopened stream's reported timeBase offset (milliseconds), rounded, is a
key of the keyframe map, and then the file is seeked to that key's recorded
position while the offset is adopted for the resume; the restart returns
none exactly when the map is empty or every candidate fails to open or
misaligns, and each misaligned attempt leaves an unknown-keyframe info. -/
theorem c7_restart (openS : Int → Option ℚ) (kfs : List (Int × Nat))
    (hnd : (kfs.map Prod.fst).Nodup) :
    List.Chain' (fun a b => b < a) (sortedKeysDesc kfs) ∧
    (∀ off pos msgs, restart_from_last_keyframe openS kfs = (some (off, pos), msgs) →
      (∃ kf ∈ kfs.map Prod.fst, openS kf = some off) ∧
      kfs.lookup (pyRound off) = some pos) ∧
    ((restart_from_last_keyframe openS kfs).1 = none ↔
      ∀ kf ∈ kfs.map Prod.fst, openS kf = none ∨
        ∃ off, openS kf = some off ∧ kfs.lookup (pyRound off) = none) ∧
    (∀ msgs, restart_from_last_keyframe openS kfs = (none, msgs) →
      ∀ kf ∈ kfs.map Prod.fst, ∀ off, openS kf = some off →
        kfs.lookup (pyRound off) = none →
        RMsg.unknownKeyframe (pyRound off) ∈ msgs) := by
  have hperm : List.Perm (sortedKeysDesc kfs) (kfs.map Prod.fst) :=
    List.perm_insertionSort _ _
  refine ⟨?_, ?_, ?_, ?_⟩
  · haveI : IsTotal Int (fun a b => b ≤ a) := ⟨fun a b => (le_total b a)⟩
    haveI : IsTrans Int (fun a b => b ≤ a) := ⟨fun a b c hab hbc => le_trans hbc hab⟩
    have hs : List.Sorted (fun a b => b ≤ a) (sortedKeysDesc kfs) :=
      List.sorted_insertionSort _ _
    have hnd' : (sortedKeysDesc kfs).Nodup := hperm.nodup_iff.mpr hnd
    exact ((hs.and hnd').imp (fun h => lt_of_le_of_ne h.1 (fun e => h.2 e.symm))).chain'
  · intro off pos msgs h
    have h1 : (restart_from_last_keyframe openS kfs).1 = some (off, pos) := by
      rw [h]
    obtain ⟨⟨kf, hkf, ho⟩, hl⟩ := restart_go_some openS kfs _ off pos h1
    exact ⟨⟨kf, hperm.mem_iff.mp hkf, ho⟩, hl⟩
  · rw [restart_from_last_keyframe, restart_go_none]
    constructor
    · intro h kf hkf
      exact h kf (hperm.mem_iff.mpr hkf)
    · intro h kf hkf
      exact h kf (hperm.mem_iff.mp hkf)
  · intro msgs h kf hkf off hoff hlk
    exact restart_go_msgs openS kfs _ msgs h kf (hperm.mem_iff.mpr hkf) off hoff hlk

/-- C7 witness: the restart resolves on the concrete map and oracle. -/
theorem c7_restart_witness :
    List.Chain' (fun a b => b < a) (sortedKeysDesc kfs1) ∧
    ((∃ kf ∈ kfs1.map Prod.fst, openS1 kf = some 3) ∧
      kfs1.lookup (pyRound 3) = some 50) := by
  have h := c7_restart openS1 kfs1 (by decide)
  refine ⟨h.1, h.2.1 3 50 [] ?_⟩
  have hpr : pyRound 3 = 3 := by norm_num [pyRound]
  have hsort : sortedKeysDesc kfs1 = [5, 3] := by decide
  rw [restart_from_last_keyframe, hsort, restart_go]
  norm_num [restart_go, openS1, kfs1, hpr, List.lookup]
  decide

/-- wait_for_message's default emissions are only debug and info events. -/
theorem wfm_events_shape (m : CoordMsg) (e : CoordEvent) (he : e ∈ wfm_events m) :
    (∃ p s, e = CoordEvent.emitDebug p s) ∨ (∃ p s, e = CoordEvent.emitInfo p s) := by
  rw [wfm_events] at he
  rcases List.mem_append.mp he with h | h
  · cases hd : m.debug with
    | none => rw [hd] at h; simp at h
    | some s =>
      rw [hd] at h
      simp at h
      exact Or.inl ⟨some m.part, s, h⟩
  · cases hi : m.info with
    | none => rw [hi] at h; simp at h
    | some s =>
      rw [hi] at h
      simp at h
      exact Or.inr ⟨some m.part, s, h⟩

/-- C3 counterexample: a FAIL status from part 0 arriving before any
duration message makes the coordinator abort with an info emission and a
FAIL broadcast, but the claimed part-failed emission never happens. -/
theorem c3_counterexample :
    duration_phase 3 100 [c3msg] =
      ([CoordEvent.emitInfo none failedDurationStr, CoordEvent.stopAllParts], none) ∧
    CoordEvent.emitPartFailed 0 ∉
      [CoordEvent.emitInfo none failedDurationStr, CoordEvent.stopAllParts] := by
  constructor
  · rfl
  · decide

/-- C3 amended: a terminal status (FAIL or SUCCESS) received before the
duration makes the coordinator emit the failed-duration info, send FAIL to
all workers (stop_all_parts) and return without starting parts 1..N-1;
no part-failed event and no part start is produced. -/
theorem c3_amended (numparts : Nat) (cap : ℚ) (m : CoordMsg) (rest : List CoordMsg)
    (st : Int) (h : m.status = some st) :
    duration_phase numparts cap (m :: rest) =
      (wfm_events m ++ [CoordEvent.emitInfo none failedDurationStr,
        CoordEvent.stopAllParts], none) ∧
    (∀ p, CoordEvent.emitPartFailed p ∉
      wfm_events m ++ [CoordEvent.emitInfo none failedDurationStr,
        CoordEvent.stopAllParts]) ∧
    (∀ p, CoordEvent.startPart p ∉
      wfm_events m ++ [CoordEvent.emitInfo none failedDurationStr,
        CoordEvent.stopAllParts]) := by
  have hs : m.status.isSome = true := by rw [h]; rfl
  refine ⟨?_, ?_, ?_⟩
  · rw [duration_phase, if_pos hs]
  · intro p hp
    rcases List.mem_append.mp hp with hp | hp
    · rcases wfm_events_shape m _ hp with ⟨q, s, he⟩ | ⟨q, s, he⟩ <;> cases he
    · simp at hp
  · intro p hp
    rcases List.mem_append.mp hp with hp | hp
    · rcases wfm_events_shape m _ hp with ⟨q, s, he⟩ | ⟨q, s, he⟩ <;> cases he
    · simp at hp

/-- C3 witness: the amended abort behaviour at the concrete message. -/
theorem c3_amended_witness :
    duration_phase 3 100 [c3msg] =
      (wfm_events c3msg ++ [CoordEvent.emitInfo none failedDurationStr,
        CoordEvent.stopAllParts], none) ∧
    CoordEvent.startPart 1 ∉
      wfm_events c3msg ++ [CoordEvent.emitInfo none failedDurationStr,
        CoordEvent.stopAllParts] := by
  have h := c3_amended 3 100 c3msg [] Status.FAIL rfl
  exact ⟨h.1, h.2.2 1⟩

/-- Consuming a block of true flags extends the open run. -/
theorem trueRunsAux_replicate (post : List Bool) :
    ∀ (m i st l : Nat), trueRunsAux i (some (st, l)) (List.replicate m true ++ post) =
      trueRunsAux (i + m) (some (st, l + m)) post := by
  intro m
  induction m with
  | zero => intro i st l; simp [List.replicate]
  | succ n ihn =>
    intro i st l
    rw [List.replicate_succ, List.cons_append]
    simp only [trueRunsAux]
    rw [ihn, show i + 1 + n = i + (n + 1) from by omega,
      show l + 1 + n = l + (n + 1) from by omega]

/-- A true flag after no open run opens one covering the whole block. -/
theorem trueRunsAux_start (post : List Bool) (m : Nat) (hm : 0 < m) (i : Nat) :
    trueRunsAux i none (List.replicate m true ++ post) =
      trueRunsAux (i + m) (some (i, m)) post := by
  obtain ⟨n, rfl⟩ : ∃ n, m = n + 1 := ⟨m - 1, by omega⟩
  rw [List.replicate_succ, List.cons_append]
  simp only [trueRunsAux]
  rw [trueRunsAux_replicate, show i + 1 + n = i + (n + 1) from by omega,
    show 1 + n = n + 1 from by omega]

/-- An open run is emitted when the input ends or continues with false. -/
theorem trueRunsAux_emit (i st l : Nat) (post : List Bool)
    (h : post = [] ∨ post.head? = some false) :
    (st, l) ∈ trueRunsAux i (some (st, l)) post := by
  rcases h with h | h
  · subst h
    simp [trueRunsAux]
  · cases post with
    | nil => simp [trueRunsAux]
    | cons b rest =>
      simp only [List.head?_cons, Option.some.injEq] at h
      subst h
      simp [trueRunsAux]

/-- Consuming a prefix that ends in false closes any open run, so the runs
of the remainder are a suffix of the output. -/
theorem trueRunsAux_shift (tail : List Bool) :
    ∀ (pre : List Bool) (i : Nat) (acc : Option (Nat × Nat)),
      pre.getLast? = some false →
      ∃ extra, trueRunsAux i acc (pre ++ tail) =
        extra ++ trueRunsAux (i + pre.length) none tail := by
  intro pre
  induction pre with
  | nil => intro i acc h; simp at h
  | cons b pre' ih =>
    intro i acc h
    cases pre' with
    | nil =>
      simp only [List.getLast?_singleton, Option.some.injEq] at h
      subst h
      cases acc with
      | none => exact ⟨[], by simp [trueRunsAux]⟩
      | some r => exact ⟨[r], by simp [trueRunsAux]⟩
    | cons c pre'' =>
      rw [List.getLast?_cons_cons] at h
      have hidx : i + 1 + (c :: pre'').length = i + (b :: c :: pre'').length := by
        simp
        omega
      cases b with
      | true =>
        cases acc with
        | none =>
          obtain ⟨extra, hex⟩ := ih (i + 1) (some (i, 1)) h
          refine ⟨extra, ?_⟩
          rw [List.cons_append]
          simp only [trueRunsAux]
          rw [hex, hidx]
        | some r =>
          obtain ⟨st, l⟩ := r
          obtain ⟨extra, hex⟩ := ih (i + 1) (some (st, l + 1)) h
          refine ⟨extra, ?_⟩
          rw [List.cons_append]
          simp only [trueRunsAux]
          rw [hex, hidx]
      | false =>
        cases acc with
        | none =>
          obtain ⟨extra, hex⟩ := ih (i + 1) none h
          refine ⟨extra, ?_⟩
          rw [List.cons_append]
          simp only [trueRunsAux]
          rw [hex, hidx]
        | some r =>
          obtain ⟨extra, hex⟩ := ih (i + 1) none h
          refine ⟨r :: extra, ?_⟩
          rw [List.cons_append]
          simp only [trueRunsAux]
          rw [hex, hidx, List.cons_append]

/-- Any maximal run of true flags appears among the computed runs. -/
theorem trueRuns_mem_of_run (bs : List Bool) (left len : Nat)
    (hlen : 0 < len) (hle : left + len ≤ bs.length)
    (hrun : ∀ j, j < len → bs.getD (left + j) false = true)
    (hleft : left = 0 ∨ bs.getD (left - 1) false = false)
    (hright : left + len = bs.length ∨ bs.getD (left + len) false = false) :
    (left, len) ∈ trueRuns bs := by
  have hmid : (bs.drop left).take len = List.replicate len true := by
    rw [List.eq_replicate_iff]
    constructor
    · rw [List.length_take, List.length_drop]
      omega
    · intro b hb
      obtain ⟨n, hn, hbn⟩ := List.mem_iff_getElem.mp hb
      have hn' : n < len := by
        rw [List.length_take, List.length_drop] at hn
        omega
      have h1 : ((bs.drop left).take len)[n] = bs.getD (left + n) false := by
        rw [List.getD_eq_getElem bs false (by omega), List.getElem_take,
          List.getElem_drop]
      have h2 := hrun n hn'
      rw [← hbn, h1, h2]
  have hdecomp : bs = bs.take left ++ (List.replicate len true ++ bs.drop (left + len)) := by
    rw [← hmid]
    have : (bs.drop left).take len ++ bs.drop (left + len) =
        (bs.drop left).take len ++ ((bs.drop left).drop len) := by
      rw [List.drop_drop]
    rw [this, List.take_append_drop, List.take_append_drop]
  have hpost : bs.drop (left + len) = [] ∨ (bs.drop (left + len)).head? = some false := by
    by_cases hl : left + len < bs.length
    · right
      rw [List.head?_drop, List.getElem?_eq_getElem hl]
      rcases hright with hr | hr
      · omega
      · rw [List.getD_eq_getElem bs false hl] at hr
        rw [hr]
    · left
      apply List.drop_eq_nil_iff.mpr
      omega
  rcases Nat.eq_zero_or_pos left with h0 | hpos
  · subst h0
    rw [trueRuns]
    conv in bs => rw [hdecomp]
    simp only [List.take_zero, List.nil_append]
    rw [trueRunsAux_start _ len hlen 0]
    exact trueRunsAux_emit _ _ _ _ hpost
  · have hpre : (bs.take left).getLast? = some false := by
      have hlt : left - 1 < (bs.take left).length := by
        rw [List.length_take]
        omega
      rw [List.getLast?_eq_getElem?, List.length_take]
      have : left ⊓ bs.length - 1 = left - 1 := by omega
      rw [this, List.getElem?_eq_getElem hlt]
      have h1 : (bs.take left)[left - 1] = bs.getD (left - 1) false := by
        rw [List.getD_eq_getElem bs false (by omega)]
        exact List.getElem_take bs
      rcases hleft with hl | hl
      · omega
      · rw [h1, hl]
    rw [trueRuns]
    conv in bs => rw [hdecomp]
    obtain ⟨extra, hex⟩ := trueRunsAux_shift (List.replicate len true ++ bs.drop (left + len))
      (bs.take left) 0 none hpre
    rw [hex]
    apply List.mem_append_right
    have hltk : (bs.take left).length = left := by
      rw [List.length_take]
      omega
    rw [hltk, Nat.zero_add, trueRunsAux_start _ len hlen left]
    exact trueRunsAux_emit _ _ _ _ hpost

/-- Runs found with no open accumulator start at or after the scan index. -/
theorem trueRunsAux_start_ge :
    ∀ (bs : List Bool) (i : Nat) (acc : Option (Nat × Nat)) (r : Nat × Nat),
      r ∈ trueRunsAux i acc bs →
      (∃ p, acc = some p ∧ r.1 = p.1) ∨ i ≤ r.1 := by
  intro bs
  induction bs with
  | nil =>
    intro i acc r h
    cases acc with
    | none => simp [trueRunsAux] at h
    | some p =>
      simp only [trueRunsAux, List.mem_singleton] at h
      subst h
      exact Or.inl ⟨p, rfl, rfl⟩
  | cons b rest ih =>
    intro i acc r h
    cases b with
    | true =>
      cases acc with
      | none =>
        rcases ih (i + 1) (some (i, 1)) r h with ⟨p, hp, hr⟩ | hr
        · cases hp
          exact Or.inr (le_of_eq hr.symm)
        · exact Or.inr (by omega)
      | some p =>
        obtain ⟨st, l⟩ := p
        rcases ih (i + 1) (some (st, l + 1)) r h with ⟨q, hq, hr⟩ | hr
        · cases hq
          exact Or.inl ⟨(st, l), rfl, hr⟩
        · exact Or.inr (by omega)
    | false =>
      cases acc with
      | none =>
        rcases ih (i + 1) none r h with ⟨q, hq, hr⟩ | hr
        · cases hq
        · exact Or.inr (by omega)
      | some p =>
        rcases List.mem_cons.mp h with he | hm
        · exact Or.inl ⟨p, rfl, by rw [he]⟩
        · rcases ih (i + 1) none r hm with ⟨q, hq, hr⟩ | hr
          · cases hq
          · exact Or.inr (by omega)

/-- Every index covered by a computed run carries a true flag. -/
theorem trueRunsAux_mem_true :
    ∀ (bs : List Bool) (i : Nat) (acc : Option (Nat × Nat)),
      (∀ p, acc = some p → p.1 + p.2 = i) →
      ∀ st len, (st, len) ∈ trueRunsAux i acc bs →
        ∀ j, j < len → i ≤ st + j → bs.getD (st + j - i) false = true := by
  intro bs
  induction bs with
  | nil =>
    intro i acc hacc st len h j hj hij
    cases acc with
    | none => simp [trueRunsAux] at h
    | some p =>
      simp only [trueRunsAux, List.mem_singleton] at h
      have hpi := hacc p rfl
      rw [Prod.ext_iff] at h
      simp only at h
      omega
  | cons b rest ih =>
    intro i acc hacc st len h j hj hij
    cases b with
    | true =>
      cases acc with
      | none =>
        by_cases hji : st + j = i
        · rw [hji, Nat.sub_self, List.getD_cons_zero]
        · have hij1 : i + 1 ≤ st + j := by omega
          have := ih (i + 1) (some (i, 1)) (by intro p hp; cases hp; rfl) st len h j hj hij1
          rw [show st + j - i = st + j - (i + 1) + 1 by omega, List.getD_cons_succ]
          exact this
      | some p =>
        obtain ⟨st0, l0⟩ := p
        have hp0 := hacc (st0, l0) rfl
        by_cases hji : st + j = i
        · rw [hji, Nat.sub_self, List.getD_cons_zero]
        · have hij1 : i + 1 ≤ st + j := by omega
          have := ih (i + 1) (some (st0, l0 + 1)) (by intro p hp; cases hp; omega)
            st len h j hj hij1
          rw [show st + j - i = st + j - (i + 1) + 1 by omega, List.getD_cons_succ]
          exact this
    | false =>
      cases acc with
      | none =>
        have hge : i + 1 ≤ st := by
          rcases trueRunsAux_start_ge rest (i + 1) none (st, len) h with ⟨q, hq, _⟩ | hr
          · cases hq
          · exact hr
        have := ih (i + 1) none (by intro p hp; cases hp) st len h j hj (by omega)
        rw [show st + j - i = st + j - (i + 1) + 1 by omega, List.getD_cons_succ]
        exact this
      | some p =>
        rcases List.mem_cons.mp h with he | hm
        · have hpi := hacc p rfl
          rw [Prod.ext_iff] at he
          simp only at he
          omega
        · have hge : i + 1 ≤ st := by
            rcases trueRunsAux_start_ge rest (i + 1) none (st, len) hm with ⟨q, hq, _⟩ | hr
            · cases hq
            · exact hr
          have := ih (i + 1) none (by intro p hp; cases hp) st len hm j hj (by omega)
          rw [show st + j - i = st + j - (i + 1) + 1 by omega, List.getD_cons_succ]
          exact this

/-- The getD of a mapped need_start list is the need_start of the getD. -/
theorem getD_map_need_start (parts : List PartState) (n : Nat) :
    (parts.map PartState.need_start).getD n false =
      (parts.getD n default).need_start :=
  List.getD_map parts default PartState.need_start

/-- Parts that are sent a start time by the dispatch need one. -/
theorem assign_starts_need (numparts : Nat) (dur : ℚ) (parts : List PartState)
    (p : Nat) (v : ℚ) (h : (p, v) ∈ assign_starts numparts dur parts) :
    (parts.getD p default).need_start = true := by
  rw [assign_starts] at h
  obtain ⟨run, hrun, hmem⟩ := List.mem_flatMap.mp h
  obtain ⟨st, len⟩ := run
  rw [run_sends] at hmem
  simp only [List.mem_map, List.mem_range] at hmem
  obtain ⟨i, hi, heq⟩ := hmem
  have hp : p = st + i := by
    have := congrArg Prod.fst heq
    simpa using this.symm
  have htrue := trueRunsAux_mem_true (parts.map PartState.need_start) 0 none
    (by intro q hq; cases hq) st len hrun i hi (by omega)
  rw [Nat.sub_zero] at htrue
  rw [hp, ← getD_map_need_start]
  exact htrue

/-- C4: when every part has reported need_start, each maximal run
[left..right] of parts needing a start receives, at part left + i, the
start time L + (i + 1) * (R - L) / width with width = right - left + 2,
L = 0 for left = 0 and the previous part's start_time otherwise, and
R = duration * 1000 for right = N - 1 and the next part's real_offset
otherwise; parts that do not need a start are sent nothing. -/
theorem c4_assign_starts (dur : ℚ) (parts : List PartState) (left right : Nat)
    (h : isRun parts left right) :
    (∀ i, i ≤ right - left →
      (left + i, startL parts left + ((i : ℚ) + 1) *
          (startR dur parts right - startL parts left) /
          ((right : ℚ) - (left : ℚ) + 2))
        ∈ assign_starts parts.length dur parts) ∧
    (∀ p v, (p, v) ∈ assign_starts parts.length dur parts →
      (parts.getD p default).need_start = true) := by
  obtain ⟨hlr, hrlen, hall, hleft, hright⟩ := h
  constructor
  · intro i hi
    have hbs : (left, right - left + 1) ∈ trueRuns (parts.map PartState.need_start) := by
      apply trueRuns_mem_of_run
      · omega
      · rw [List.length_map]
        omega
      · intro j hj
        rw [getD_map_need_start]
        exact hall (left + j) (by omega) (by omega)
      · rcases hleft with h0 | h0
        · exact Or.inl h0
        · refine Or.inr ?_
          rw [getD_map_need_start]
          exact h0
      · rcases hright with h0 | h0
        · exact Or.inl (by rw [List.length_map]; omega)
        · refine Or.inr ?_
          rw [getD_map_need_start]
          rw [show left + (right - left + 1) = right + 1 from by omega]
          exact h0
    rw [assign_starts]
    apply List.mem_flatMap.mpr
    refine ⟨(left, right - left + 1), hbs, ?_⟩
    rw [run_sends]
    simp only [List.mem_map, List.mem_range]
    refine ⟨i, by omega, ?_⟩
    have hL : (if left = 0 then (0 : ℚ)
        else (parts.getD (left - 1) default).start_time) = startL parts left := rfl
    have hR : (if left + (right - left + 1) = parts.length then dur * 1000
        else (parts.getD (left + (right - left + 1)) default).real_offset) =
        startR dur parts right := by
      rw [startR]
      by_cases hc : left + (right - left + 1) = parts.length
      · rw [if_pos hc, if_pos (by omega)]
      · rw [if_neg hc, if_neg (by omega)]
        rw [show left + (right - left + 1) = right + 1 from by omega]
    have hsub : ((right - left : Nat) : ℚ) = (right : ℚ) - (left : ℚ) :=
      Nat.cast_sub hlr
    have hD : ((left + (right - left + 1) : Nat) : ℚ) - (left : ℚ) + 1 =
        (right : ℚ) - (left : ℚ) + 2 := by
      push_cast [hsub]
      ring
    rw [Prod.mk.injEq]
    refine ⟨rfl, ?_⟩
    rw [hL, hR, hD, mul_div_assoc]
  · intro p v hv
    exact assign_starts_need parts.length dur parts p v hv

/-- C4 witness: the singleton run [1..1] of parts2 receives the midpoint of
its neighbours' anchors. -/
theorem c4_assign_starts_witness :
    (1 + 0, startL parts2 1 + ((0 : ℚ) + 1) *
        (startR 99 parts2 1 - startL parts2 1) / ((1 : ℚ) - (1 : ℚ) + 2))
      ∈ assign_starts parts2.length 99 parts2 := by
  have hrun : isRun parts2 1 1 := by
    refine ⟨le_refl 1, by decide, ?_, ?_, ?_⟩
    · intro j h1 h2
      have hj : j = 1 := by omega
      subst hj
      decide
    · refine Or.inr ?_
      decide
    · refine Or.inr ?_
      decide
  exact (c4_assign_starts 99 parts2 1 1 hrun).1 0 (by omega)

/-- set_last changes no field but the two last timestamps. -/
theorem set_last_fields (s : PS) (k : Nat) (v : Int) :
    (PS.set_last s k v).offset = s.offset ∧
    (PS.set_last s k v).found_first_tag = s.found_first_tag ∧
    (PS.set_last s k v).real_offset = s.real_offset ∧
    (PS.set_last s k v).duration = s.duration ∧
    (PS.set_last s k v).headerA = s.headerA ∧
    (PS.set_last s k v).headerV = s.headerV := by
  rw [PS.set_last]
  split <;> exact ⟨rfl, rfl, rfl, rfl, rfl, rfl⟩

/-- set_header changes no field but the two header flags. -/
theorem set_header_fields (s : PS) (k : Nat) :
    (PS.set_header s k).lastA = s.lastA ∧ (PS.set_header s k).lastV = s.lastV ∧
    (PS.set_header s k).offset = s.offset ∧
    (PS.set_header s k).found_first_tag = s.found_first_tag ∧
    (PS.set_header s k).real_offset = s.real_offset ∧
    (PS.set_header s k).duration = s.duration := by
  rw [PS.set_header]
  split <;> exact ⟨rfl, rfl, rfl, rfl, rfl, rfl⟩

/-- consume changes no field but the two header flags. -/
theorem consume_fields (s : PS) (t : Tag) :
    (consume s t).lastA = s.lastA ∧ (consume s t).lastV = s.lastV ∧
    (consume s t).offset = s.offset ∧
    (consume s t).found_first_tag = s.found_first_tag ∧
    (consume s t).real_offset = s.real_offset ∧
    (consume s t).duration = s.duration := by
  rw [consume]
  cases ht : t.is_header with
  | error e => exact ⟨rfl, rfl, rfl, rfl, rfl, rfl⟩
  | ok o =>
    cases o with
    | none => exact ⟨rfl, rfl, rfl, rfl, rfl, rfl⟩
    | some k => exact set_header_fields s k

/-- last_timestamp after consume is unchanged. -/
theorem last_consume (s : PS) (t : Tag) (k : Nat) :
    PS.last_timestamp (consume s t) k = PS.last_timestamp s k := by
  simp only [PS.last_timestamp, (consume_fields s t).1, (consume_fields s t).2.1]

/-- last_timestamp of the written kind after set_last. -/
theorem last_set_last_same (s : PS) (k : Nat) (v : Int) :
    PS.last_timestamp (PS.set_last s k v) k = v := by
  rw [PS.set_last, PS.last_timestamp]
  by_cases hk : k = Tag.AUDIO
  · rw [if_pos hk, if_pos hk]
  · rw [if_neg hk, if_neg hk]

/-- last_timestamp of the other media kind after set_last. -/
theorem last_set_last_other (s : PS) (k : Nat) (v : Int) (k' : Nat)
    (hk : k = Tag.AUDIO ∨ k = Tag.VIDEO) (hk' : k' = Tag.AUDIO ∨ k' = Tag.VIDEO)
    (hne : k' ≠ k) :
    PS.last_timestamp (PS.set_last s k v) k' = PS.last_timestamp s k' := by
  rcases hk with hk | hk <;> rcases hk' with hk' | hk' <;> subst hk <;> subst hk' <;>
    simp_all [PS.set_last, PS.last_timestamp, Tag.AUDIO, Tag.VIDEO]

/-- A tag accepted as non-header has at least the two body bytes the test
read. -/
theorem is_header_ok_shape (t : Tag) (o : Option Nat)
    (h : t.is_header = Except.ok o) :
    ∃ b0 b1 rest, t.body = b0 :: b1 :: rest := by
  rw [Tag.is_header] at h
  cases hb : t.body with
  | nil => rw [hb] at h; cases h
  | cons b0 rest =>
    cases rest with
    | nil => rw [hb] at h; cases h
    | cons b1 r2 => exact ⟨b0, b1, r2, rfl⟩

/-- A non-header tag can always be tested for being a video keyframe. -/
theorem is_video_keyframe_ok (t : Tag) (h : t.is_header = Except.ok none) :
    ∃ b, t.is_video_keyframe = Except.ok b := by
  obtain ⟨b0, b1, rest, hb⟩ := is_header_ok_shape t none h
  rw [Tag.is_video_keyframe]
  by_cases hk : t.kind = Tag.VIDEO
  · rw [if_pos hk, hb]
    exact ⟨_, rfl⟩
  · rw [if_neg hk]
    exact ⟨false, rfl⟩

/-- handled_tag never fails on a tag whose header test succeeded. -/
theorem handled_tag_ok (s : PS) (t : Tag) (o : Option Nat)
    (h : t.is_header = Except.ok o) :
    ∃ b, handled_tag s t = Except.ok b := by
  rw [handled_tag]
  by_cases hk : t.kind = Tag.AUDIO ∨ t.kind = Tag.VIDEO
  · rw [if_pos hk, h]
    cases o with
    | none => exact ⟨_, rfl⟩
    | some k => exact ⟨_, rfl⟩
  · rw [if_neg hk]
    exact ⟨false, rfl⟩

/-- A true handled_tag needs a media-kind tag with a successful header
test, and on a non-header it is exactly the last_timestamp comparison. -/
theorem handled_tag_true (s : PS) (t : Tag)
    (h : handled_tag s t = Except.ok true) :
    (t.kind = Tag.AUDIO ∨ t.kind = Tag.VIDEO) ∧
    (∀ o, t.is_header = Except.ok o → o = none →
      PS.last_timestamp s t.kind < t.timestamp + s.offset) := by
  rw [handled_tag] at h
  by_cases hk : t.kind = Tag.AUDIO ∨ t.kind = Tag.VIDEO
  · rw [if_pos hk] at h
    refine ⟨hk, ?_⟩
    intro o ho hno
    subst hno
    rw [ho] at h
    simp only [Except.ok.injEq, decide_eq_true_eq] at h
    exact h
  · rw [if_neg hk] at h
    cases h


/-- The first-tag block is inert for unhandled tags, headers and once the
first tag has been found. -/
theorem first_tag_update_inert (a : Bool) (s : PS) (t : Tag) (b : Bool)
    (hff : s.found_first_tag = true) (o : Option Nat)
    (ho : t.is_header = Except.ok o) :
    first_tag_update a s t b = Except.ok s := by
  cases b with
  | false => rw [first_tag_update]; simp
  | true =>
    rw [first_tag_update]
    simp only [if_true]
    rw [ho]
    cases o with
    | some k => rfl
    | none => rw [hff, if_pos rfl]

/-- A download-mode first-tag block never changes real_offset. -/
theorem first_tag_update_real (s : PS) (t : Tag) (b : Bool) (s1 : PS)
    (h : first_tag_update false s t b = Except.ok s1) :
    s1.real_offset = s.real_offset := by
  rw [first_tag_update] at h
  cases b with
  | false =>
    simp only [Bool.false_eq_true, if_false, Except.ok.injEq] at h
    rw [← h]
  | true =>
    simp only [if_true] at h
    cases ho : t.is_header with
    | error e0 => rw [ho] at h; cases h
    | ok o =>
      rw [ho] at h
      cases o with
      | some k => cases h; rfl
      | none =>
        by_cases hf : s.found_first_tag
        · rw [if_pos hf] at h; cases h; rfl
        · rw [if_neg hf] at h
          simp only [Bool.false_eq_true, if_false, Except.ok.injEq] at h
          rw [← h]

/-- The yield block never changes real_offset. -/
theorem yield_update_real (s : PS) (t : Tag) (b : Bool) (s2 : PS)
    (out : Option (Tag × Int)) (h : yield_update s t b = Except.ok (s2, out)) :
    s2.real_offset = s.real_offset := by
  rw [yield_update] at h
  cases b with
  | false =>
    simp only [Bool.false_eq_true, if_false, Except.ok.injEq, Prod.mk.injEq] at h
    rw [← h.1]
  | true =>
    simp only [if_true] at h
    cases ho : t.is_header with
    | error e0 => rw [ho] at h; cases h
    | ok o =>
      rw [ho] at h
      cases o with
      | some k =>
        simp only [Except.ok.injEq, Prod.mk.injEq] at h
        rw [← h.1]
      | none =>
        simp only [Except.ok.injEq, Prod.mk.injEq] at h
        rw [← h.1]
        exact (set_last_fields s t.kind (t.timestamp + s.offset)).2.2.1

/-- A successful download-mode step leaves real_offset untouched. -/
theorem rts_step_real (lp : Bool) (e : ℚ) (s : PS) (t : Tag) (res : StepRes)
    (h : rts_step false lp e s t = Except.ok res) :
    res.state.real_offset = s.real_offset := by
  rw [rts_step] at h
  cases hh : handled_tag s t with
  | error e0 => simp only [hh] at h; exact Except.noConfusion h
  | ok handled =>
    simp only [hh] at h
    cases hf1 : first_tag_update false s t handled with
    | error e0 => simp only [hf1] at h; exact Except.noConfusion h
    | ok s1 =>
      simp only [hf1] at h
      have hr1 := first_tag_update_real s t handled s1 hf1
      cases hec : end_check false lp e s1 t with
      | error e0 => simp only [hec] at h; exact Except.noConfusion h
      | ok oinfos =>
        simp only [hec] at h
        cases oinfos with
        | some infos0 =>
          cases h
          simpa [StepRes.state] using hr1
        | none =>
          cases hy : yield_update s1 t handled with
          | error e0 => simp only [hy] at h; exact Except.noConfusion h
          | ok p =>
            obtain ⟨s2, out⟩ := p
            simp only [hy] at h
            cases h
            have hr2 := yield_update_real s1 t handled s2 out hy
            simp only [StepRes.state]
            rw [hr2, hr1]

/-- Case analysis for a non-halting step once the first tag is found: the
tag is dropped and the state unchanged, or a sequence header is yielded
unchanged, or a media non-header is yielded and only its stream's
last_timestamp moves, to timestamp + offset, which exceeded the old one. -/
theorem rts_step_go_found (a lp : Bool) (e : ℚ) (s : PS) (t : Tag) (s' : PS)
    (out : Option (Tag × Int)) (infos : List Msg)
    (hff : s.found_first_tag = true)
    (h : rts_step a lp e s t = Except.ok (StepRes.go s' out infos)) :
    (out = none ∧ s' = s) ∨
    (∃ k, out = some (t, s.offset) ∧ t.is_header = Except.ok (some k) ∧ s' = s) ∨
    (out = some (t, s.offset) ∧ t.is_header = Except.ok none ∧
      (t.kind = Tag.AUDIO ∨ t.kind = Tag.VIDEO) ∧
      s' = PS.set_last s t.kind (t.timestamp + s.offset) ∧
      PS.last_timestamp s t.kind < t.timestamp + s.offset) := by
  rw [rts_step] at h
  cases hh : handled_tag s t with
  | error e0 => simp only [hh] at h; exact Except.noConfusion h
  | ok handled =>
    simp only [hh] at h
    cases handled with
    | false =>
      have hf : first_tag_update a s t false = Except.ok s := by
        rw [first_tag_update]
        simp
      simp only [hf] at h
      cases hec : end_check a lp e s t with
      | error e0 => simp only [hec] at h; exact Except.noConfusion h
      | ok oinfos =>
        simp only [hec] at h
        cases oinfos with
        | some infos0 => simp at h
        | none =>
          have hy : yield_update s t false = Except.ok (s, none) := by
            rw [yield_update]
            simp
          simp only [hy] at h
          simp only [Except.ok.injEq, StepRes.go.injEq] at h
          obtain ⟨hs, ho2, -⟩ := h
          exact Or.inl ⟨ho2.symm, hs.symm⟩
    | true =>
      obtain ⟨hk, hcmp⟩ := handled_tag_true s t hh
      have hok : ∃ o, t.is_header = Except.ok o := by
        rw [handled_tag, if_pos hk] at hh
        cases ho : t.is_header with
        | error e0 => rw [ho] at hh; cases hh
        | ok o => exact ⟨o, rfl⟩
      obtain ⟨o, ho⟩ := hok
      have hf := first_tag_update_inert a s t true hff o ho
      simp only [hf] at h
      cases hec : end_check a lp e s t with
      | error e0 => simp only [hec] at h; exact Except.noConfusion h
      | ok oinfos =>
        simp only [hec] at h
        cases oinfos with
        | some infos0 => simp at h
        | none =>
          cases o with
          | some k =>
            have hy : yield_update s t true = Except.ok (s, some (t, s.offset)) := by
              rw [yield_update]
              simp only [if_true]
              rw [ho]
            simp only [hy] at h
            simp only [Except.ok.injEq, StepRes.go.injEq] at h
            obtain ⟨hs, ho2, -⟩ := h
            exact Or.inr (Or.inl ⟨k, ho2.symm, ho, hs.symm⟩)
          | none =>
            have hy : yield_update s t true =
                Except.ok (PS.set_last s t.kind (t.timestamp + s.offset),
                  some (t, (PS.set_last s t.kind (t.timestamp + s.offset)).offset)) := by
              rw [yield_update]
              simp only [if_true]
              rw [ho]
            simp only [hy] at h
            simp only [Except.ok.injEq, StepRes.go.injEq] at h
            obtain ⟨hs, ho2, -⟩ := h
            refine Or.inr (Or.inr ⟨?_, ho, hk, hs.symm, hcmp none ho rfl⟩)
            rw [← ho2, (set_last_fields s t.kind (t.timestamp + s.offset)).1]

/-- Case analysis for a non-halting step before the first tag is found:
the tag is dropped, or is a yielded sequence header, or is the first
media non-header, which flips found_first_tag, sets its stream's
last_timestamp to its own adjusted timestamp and leaves the other media
stream's last_timestamp alone. -/
theorem rts_step_go_pre (a lp : Bool) (e : ℚ) (s : PS) (t : Tag) (s' : PS)
    (out : Option (Tag × Int)) (infos : List Msg)
    (hff : s.found_first_tag = false)
    (h : rts_step a lp e s t = Except.ok (StepRes.go s' out infos)) :
    (out = none ∧ s' = s) ∨
    (∃ k, out = some (t, s.offset) ∧ t.is_header = Except.ok (some k) ∧ s' = s) ∨
    (out = some (t, s'.offset) ∧ t.is_header = Except.ok none ∧
      (t.kind = Tag.AUDIO ∨ t.kind = Tag.VIDEO) ∧
      s'.found_first_tag = true ∧
      PS.last_timestamp s' t.kind = t.timestamp + s'.offset ∧
      (∀ k', (k' = Tag.AUDIO ∨ k' = Tag.VIDEO) → k' ≠ t.kind →
        PS.last_timestamp s' k' = PS.last_timestamp s k')) := by
  rw [rts_step] at h
  cases hh : handled_tag s t with
  | error e0 => simp only [hh] at h; exact Except.noConfusion h
  | ok handled =>
    simp only [hh] at h
    cases handled with
    | false =>
      have hf : first_tag_update a s t false = Except.ok s := by
        rw [first_tag_update]
        simp
      simp only [hf] at h
      cases hec : end_check a lp e s t with
      | error e0 => simp only [hec] at h; exact Except.noConfusion h
      | ok oinfos =>
        simp only [hec] at h
        cases oinfos with
        | some infos0 => simp at h
        | none =>
          have hy : yield_update s t false = Except.ok (s, none) := by
            rw [yield_update]
            simp
          simp only [hy] at h
          simp only [Except.ok.injEq, StepRes.go.injEq] at h
          obtain ⟨hs, ho2, -⟩ := h
          exact Or.inl ⟨ho2.symm, hs.symm⟩
    | true =>
      obtain ⟨hk, -⟩ := handled_tag_true s t hh
      have hok : ∃ o, t.is_header = Except.ok o := by
        rw [handled_tag, if_pos hk] at hh
        cases ho : t.is_header with
        | error e0 => rw [ho] at hh; cases hh
        | ok o => exact ⟨o, rfl⟩
      obtain ⟨o, ho⟩ := hok
      cases o with
      | some k =>
        have hf : first_tag_update a s t true = Except.ok s := by
          rw [first_tag_update]
          simp only [if_true]
          rw [ho]
        simp only [hf] at h
        cases hec : end_check a lp e s t with
        | error e0 => simp only [hec] at h; exact Except.noConfusion h
        | ok oinfos =>
          simp only [hec] at h
          cases oinfos with
          | some infos0 => simp at h
          | none =>
            have hy : yield_update s t true = Except.ok (s, some (t, s.offset)) := by
              rw [yield_update]
              simp only [if_true]
              rw [ho]
            simp only [hy] at h
            simp only [Except.ok.injEq, StepRes.go.injEq] at h
            obtain ⟨hs, ho2, -⟩ := h
            exact Or.inr (Or.inl ⟨k, ho2.symm, ho, hs.symm⟩)
      | none =>
        obtain ⟨s1, hf, hs1f, hs1A, hs1V⟩ :
            ∃ s1, first_tag_update a s t true = Except.ok s1 ∧
              s1.found_first_tag = true ∧ s1.lastA = s.lastA ∧ s1.lastV = s.lastV := by
          cases a with
          | true =>
            refine ⟨{ s with found_first_tag := true, offset := t.timestamp, real_offset := some (t.timestamp : ℚ) }, ?_, rfl, rfl, rfl⟩
            rw [first_tag_update]
            simp [ho, hff]
          | false =>
            refine ⟨{ s with found_first_tag := true, offset := s.offset - t.timestamp, duration := s.duration + t.timestamp }, ?_, rfl, rfl, rfl⟩
            rw [first_tag_update]
            simp [ho, hff]
        simp only [hf] at h
        cases hec : end_check a lp e s1 t with
        | error e0 => simp only [hec] at h; exact Except.noConfusion h
        | ok oinfos =>
          simp only [hec] at h
          cases oinfos with
          | some infos0 => simp at h
          | none =>
            have hy : yield_update s1 t true =
                Except.ok (PS.set_last s1 t.kind (t.timestamp + s1.offset),
                  some (t, (PS.set_last s1 t.kind (t.timestamp + s1.offset)).offset)) := by
              rw [yield_update]
              simp only [if_true]
              rw [ho]
            simp only [hy] at h
            simp only [Except.ok.injEq, StepRes.go.injEq] at h
            obtain ⟨hs, ho2, -⟩ := h
            refine Or.inr (Or.inr ⟨?_, ho, hk, ?_, ?_, ?_⟩)
            · rw [← ho2, ← hs]
            · rw [← hs, (set_last_fields s1 t.kind (t.timestamp + s1.offset)).2.1, hs1f]
            · rw [← hs, last_set_last_same,
                (set_last_fields s1 t.kind (t.timestamp + s1.offset)).1]
            · intro k' hk' hkne
              rw [← hs, last_set_last_other s1 t.kind (t.timestamp + s1.offset) k' hk hk' hkne]
              simp only [PS.last_timestamp, hs1A, hs1V]

/-- A yielded non-header tag was handled, is yielded with the state's
current offset, and leaves its stream's last_timestamp at its adjusted
timestamp. -/
theorem rts_step_go_nonheader (a lp : Bool) (e : ℚ) (s : PS) (t : Tag) (s' : PS)
    (w : Tag) (off : Int) (infos : List Msg)
    (hih : t.is_header = Except.ok none)
    (h : rts_step a lp e s t = Except.ok (StepRes.go s' (some (w, off)) infos)) :
    w = t ∧ off = s'.offset ∧ handled_tag s t = Except.ok true ∧
    PS.last_timestamp s' t.kind = t.timestamp + s'.offset := by
  rw [rts_step] at h
  cases hh : handled_tag s t with
  | error e0 => simp only [hh] at h; exact Except.noConfusion h
  | ok handled =>
    simp only [hh] at h
    cases handled with
    | false =>
      have hf : first_tag_update a s t false = Except.ok s := by
        rw [first_tag_update]
        simp
      simp only [hf] at h
      cases hec : end_check a lp e s t with
      | error e0 => simp only [hec] at h; exact Except.noConfusion h
      | ok oinfos =>
        simp only [hec] at h
        cases oinfos with
        | some infos0 => simp at h
        | none =>
          have hy : yield_update s t false = Except.ok (s, none) := by
            rw [yield_update]
            simp
          simp only [hy] at h
          simp at h
    | true =>
      cases hf : first_tag_update a s t true with
      | error e0 => simp only [hf] at h; exact Except.noConfusion h
      | ok s1 =>
        simp only [hf] at h
        cases hec : end_check a lp e s1 t with
        | error e0 => simp only [hec] at h; exact Except.noConfusion h
        | ok oinfos =>
          simp only [hec] at h
          cases oinfos with
          | some infos0 => simp at h
          | none =>
            have hy : yield_update s1 t true =
                Except.ok (PS.set_last s1 t.kind (t.timestamp + s1.offset),
                  some (t, (PS.set_last s1 t.kind (t.timestamp + s1.offset)).offset)) := by
              rw [yield_update]
              simp only [if_true]
              rw [hih]
            simp only [hy] at h
            simp only [Except.ok.injEq, StepRes.go.injEq, Option.some.injEq,
              Prod.mk.injEq] at h
            obtain ⟨hs, ⟨hw, hoff⟩, -⟩ := h
            refine ⟨hw.symm, ?_, rfl, ?_⟩
            · rw [← hoff, ← hs]
            · rw [← hs, last_set_last_same,
                (set_last_fields s1 t.kind (t.timestamp + s1.offset)).1]

/-- A download-mode pass never changes real_offset. -/
theorem rts_run_real (lp : Bool) (e : ℚ) :
    ∀ (tags : List Tag) (s : PS) (r : RunRes),
      rts_run false lp e s tags = Except.ok r →
      r.state.real_offset = s.real_offset := by
  intro tags
  induction tags with
  | nil =>
    intro s r h
    rw [rts_run] at h
    cases h
    rfl
  | cons t rest ih =>
    intro s r h
    rw [rts_run] at h
    cases hstep : rts_step false lp e s t with
    | error e0 => simp only [hstep] at h; exact Except.noConfusion h
    | ok sr =>
      cases sr with
      | halt s1 infos =>
        simp only [hstep] at h
        cases h
        exact rts_step_real lp e s t _ hstep
      | go s1 out infos =>
        simp only [hstep] at h
        have h1 : s1.real_offset = s.real_offset := rts_step_real lp e s t _ hstep
        cases out with
        | none =>
          simp only at h
          cases hr : rts_run false lp e s1 rest with
          | error e0 => simp only [hr] at h; exact Except.noConfusion h
          | ok r0 =>
            simp only [hr] at h
            cases h
            rw [ih s1 r0 hr]
            exact h1
        | some w =>
          obtain ⟨wt, woff⟩ := w
          simp only at h
          cases hr : rts_run false lp e (consume s1 wt) rest with
          | error e0 => simp only [hr] at h; exact Except.noConfusion h
          | ok r0 =>
            simp only [hr] at h
            cases h
            rw [ih (consume s1 wt) r0 hr, (consume_fields s1 wt).2.2.2.2.1]
            exact h1

/-- A media non-header at the written kind extends the adjusted list. -/
theorem adjWrites_cons_media (k : Nat) (t : Tag) (off : Int) (ws : List (Tag × Int))
    (h1 : t.kind = k) (h2 : is_media_non_header t = true) :
    adjWrites k ((t, off) :: ws) = (t.timestamp + off) :: adjWrites k ws := by
  simp [adjWrites, List.filter_cons, h1, h2]

/-- Other writes do not contribute to the adjusted list of kind k. -/
theorem adjWrites_cons_skip (k : Nat) (t : Tag) (off : Int) (ws : List (Tag × Int))
    (h : (t.kind == k && is_media_non_header t) = false) :
    adjWrites k ((t, off) :: ws) = adjWrites k ws := by
  simp [adjWrites, List.filter_cons, h]

/-- A sequence header is not a media non-header. -/
theorem is_media_non_header_header (t : Tag) (k : Nat)
    (h : t.is_header = Except.ok (some k)) : is_media_non_header t = false := by
  rw [is_media_non_header, h]
  simp

/-- A media tag with a successful non-header test is a media non-header. -/
theorem is_media_non_header_true (t : Tag)
    (hk : t.kind = Tag.AUDIO ∨ t.kind = Tag.VIDEO)
    (h : t.is_header = Except.ok none) : is_media_non_header t = true := by
  rw [is_media_non_header, h]
  rcases hk with hk | hk <;> simp [hk]

/-- After the first tag, each pass keeps every media stream's written
adjusted timestamps strictly above the running last_timestamp. -/
theorem rts_run_mono_post (a lp : Bool) (e : ℚ) :
    ∀ (tags : List Tag) (s : PS) (r : RunRes),
      s.found_first_tag = true →
      rts_run a lp e s tags = Except.ok r →
      ∀ k, k = Tag.AUDIO ∨ k = Tag.VIDEO →
        List.Chain' (fun x y => x < y) (PS.last_timestamp s k :: adjWrites k r.writes) := by
  intro tags
  induction tags with
  | nil =>
    intro s r hff hrun k hk
    rw [rts_run] at hrun
    cases hrun
    simp [adjWrites]
  | cons t rest ih =>
    intro s r hff hrun k hk
    rw [rts_run] at hrun
    cases hstep : rts_step a lp e s t with
    | error e0 => simp only [hstep] at hrun; exact Except.noConfusion hrun
    | ok sr =>
      cases sr with
      | halt s1 infos =>
        simp only [hstep] at hrun
        cases hrun
        simp [adjWrites]
      | go s1 out infos =>
        simp only [hstep] at hrun
        rcases rts_step_go_found a lp e s t s1 out infos hff hstep with
          ⟨ho, hs⟩ | ⟨k0, ho, hih, hs⟩ | ⟨ho, hih, hkind, hs, hlt⟩
        · subst ho hs
          simp only at hrun
          cases hr : rts_run a lp e s1 rest with
          | error e0 => simp only [hr] at hrun; exact Except.noConfusion hrun
          | ok r0 =>
            simp only [hr] at hrun
            cases hrun
            simpa using ih s1 r0 hff hr k hk
        · subst ho hs
          simp only at hrun
          cases hr : rts_run a lp e (consume s1 t) rest with
          | error e0 => simp only [hr] at hrun; exact Except.noConfusion hrun
          | ok r0 =>
            simp only [hr] at hrun
            cases hrun
            have hcf := (consume_fields s1 t).2.2.2.1
            have := ih (consume s1 t) r0 (by rw [hcf, hff]) hr k hk
            rw [last_consume s1 t k] at this
            simpa [adjWrites_cons_skip k t s1.offset r0.writes
              (by rw [is_media_non_header_header t k0 hih]; simp)] using this
        · subst ho hs
          simp only at hrun
          have hcons : consume (PS.set_last s t.kind (t.timestamp + s.offset)) t =
              PS.set_last s t.kind (t.timestamp + s.offset) := by
            rw [consume, hih]
          rw [hcons] at hrun
          cases hr : rts_run a lp e (PS.set_last s t.kind (t.timestamp + s.offset)) rest with
          | error e0 => simp only [hr] at hrun; exact Except.noConfusion hrun
          | ok r0 =>
            simp only [hr] at hrun
            cases hrun
            have hff1 : (PS.set_last s t.kind (t.timestamp + s.offset)).found_first_tag =
                true := by
              rw [(set_last_fields s t.kind (t.timestamp + s.offset)).2.1, hff]
            have hrest := ih _ r0 hff1 hr k hk
            by_cases hkk : t.kind = k
            · subst hkk
              rw [last_set_last_same] at hrest
              simp only [Option.toList_some, List.cons_append, List.nil_append]
              rw [adjWrites_cons_media t.kind t s.offset r0.writes rfl
                (is_media_non_header_true t hkind hih)]
              exact List.chain'_cons.mpr ⟨hlt, hrest⟩
            · rw [last_set_last_other s t.kind (t.timestamp + s.offset) k hkind hk
                (fun hc => hkk hc.symm)] at hrest
              simp only [Option.toList_some, List.cons_append, List.nil_append]
              rw [adjWrites_cons_skip k t s.offset r0.writes
                (by simp [hkk])]
              exact hrest

/-- Before the first tag, each pass writes strictly increasing adjusted
timestamps per media stream. -/
theorem rts_run_mono_pre (a lp : Bool) (e : ℚ) :
    ∀ (tags : List Tag) (s : PS) (r : RunRes),
      s.found_first_tag = false →
      rts_run a lp e s tags = Except.ok r →
      ∀ k, k = Tag.AUDIO ∨ k = Tag.VIDEO →
        List.Chain' (fun x y => x < y) (adjWrites k r.writes) := by
  intro tags
  induction tags with
  | nil =>
    intro s r hff hrun k hk
    rw [rts_run] at hrun
    cases hrun
    simp [adjWrites]
  | cons t rest ih =>
    intro s r hff hrun k hk
    rw [rts_run] at hrun
    cases hstep : rts_step a lp e s t with
    | error e0 => simp only [hstep] at hrun; exact Except.noConfusion hrun
    | ok sr =>
      cases sr with
      | halt s1 infos =>
        simp only [hstep] at hrun
        cases hrun
        simp [adjWrites]
      | go s1 out infos =>
        simp only [hstep] at hrun
        rcases rts_step_go_pre a lp e s t s1 out infos hff hstep with
          ⟨ho, hs⟩ | ⟨k0, ho, hih, hs⟩ | ⟨ho, hih, hkind, hfound, hlast, hother⟩
        · subst ho hs
          simp only at hrun
          cases hr : rts_run a lp e s1 rest with
          | error e0 => simp only [hr] at hrun; exact Except.noConfusion hrun
          | ok r0 =>
            simp only [hr] at hrun
            cases hrun
            simpa using ih s1 r0 hff hr k hk
        · subst ho hs
          simp only at hrun
          cases hr : rts_run a lp e (consume s1 t) rest with
          | error e0 => simp only [hr] at hrun; exact Except.noConfusion hrun
          | ok r0 =>
            simp only [hr] at hrun
            cases hrun
            have hcf := (consume_fields s1 t).2.2.2.1
            have := ih (consume s1 t) r0 (by rw [hcf, hff]) hr k hk
            simpa [adjWrites_cons_skip k t s1.offset r0.writes
              (by rw [is_media_non_header_header t k0 hih]; simp)] using this
        · subst ho
          simp only at hrun
          have hcons : consume s1 t = s1 := by
            rw [consume, hih]
          rw [hcons] at hrun
          cases hr : rts_run a lp e s1 rest with
          | error e0 => simp only [hr] at hrun; exact Except.noConfusion hrun
          | ok r0 =>
            simp only [hr] at hrun
            cases hrun
            have hrest := rts_run_mono_post a lp e rest s1 r0 hfound hr k hk
            by_cases hkk : t.kind = k
            · subst hkk
              simp only [Option.toList_some, List.cons_append, List.nil_append]
              rw [adjWrites_cons_media t.kind t s1.offset r0.writes rfl
                (is_media_non_header_true t hkind hih)]
              rw [hlast] at hrest
              exact hrest
            · simp only [Option.toList_some, List.cons_append, List.nil_append]
              rw [adjWrites_cons_skip k t s1.offset r0.writes (by simp [hkk])]
              exact hrest.tail

/-- C1: in a streaming pass, a non-header audio or video tag is handled
exactly when its timestamp plus the current offset strictly exceeds its
stream's last_timestamp; a yielded non-header tag leaves that
last_timestamp equal to its timestamp plus the (current) offset, which is
also the offset it is written at; consequently the adjusted timestamps of
the non-header tags a pass writes are strictly increasing per media
kind. -/
theorem c1_handled_monotone (a lp : Bool) (e : ℚ) (s0 : PS) (tags : List Tag)
    (r : RunRes) (hrun : rts_run a lp e s0 tags = Except.ok r) :
    (∀ (s : PS) (t : Tag), (t.kind = Tag.AUDIO ∨ t.kind = Tag.VIDEO) →
      t.is_header = Except.ok none →
      handled_tag s t =
        Except.ok (decide (PS.last_timestamp s t.kind < t.timestamp + s.offset))) ∧
    (∀ (s s' : PS) (t w : Tag) (off : Int) (infos : List Msg),
      rts_step a lp e s t = Except.ok (StepRes.go s' (some (w, off)) infos) →
      t.is_header = Except.ok none →
      w = t ∧ off = s'.offset ∧ handled_tag s t = Except.ok true ∧
      PS.last_timestamp s' t.kind = t.timestamp + s'.offset) ∧
    (∀ k, k = Tag.AUDIO ∨ k = Tag.VIDEO →
      List.Chain' (fun x y => x < y) (adjWrites k r.writes)) := by
  refine ⟨?_, ?_, ?_⟩
  · intro s t hk hih
    rw [handled_tag, if_pos hk, hih]
  · intro s s' t w off infos hstep hih
    exact rts_step_go_nonheader a lp e s t s' w off infos hih hstep
  · intro k hk
    cases hf : s0.found_first_tag with
    | true => exact (rts_run_mono_post a lp e tags s0 r hf hrun k hk).tail
    | false => exact rts_run_mono_pre a lp e tags s0 r hf hrun k hk

/-- C1 witness: a one-tag pass evaluated concretely. -/
theorem c1_handled_monotone_witness :
    handled_tag c2state c2tag =
      Except.ok (decide (PS.last_timestamp c2state c2tag.kind <
        c2tag.timestamp + c2state.offset)) ∧
    List.Chain' (fun x y => x < y)
      (adjWrites Tag.AUDIO [(c2tag, 0)]) := by
  have hrun : rts_run false false 100 c2state [c2tag] =
      Except.ok { state := { c2state with lastA := 5 }, writes := [(c2tag, 0)],
                  msgs := [], clean := false } := rfl
  have h := c1_handled_monotone false false 100 c2state [c2tag] _ hrun
  exact ⟨h.1 c2state c2tag (Or.inl rfl) rfl, h.2.2 Tag.AUDIO (Or.inl rfl)⟩

/-- C2 counterexample: in download mode on a non-last part, an audio tag
whose timestamp equals the duration budget is not a video keyframe, so
neither break fires: the step yields the tag and the pass keeps reading,
although the tag's timestamp reached the budget. -/
theorem c2_counterexample :
    c2state.duration ≤ c2tag.timestamp ∧ c2tag.is_header = Except.ok none ∧
    rts_step false false 100 c2state c2tag =
      Except.ok (StepRes.go { c2state with lastA := 5 } (some (c2tag, 0)) []) := by
  exact ⟨by decide, rfl, rfl⟩

/-- C2 amended: in download mode, once a non-header tag's timestamp has
reached the duration budget the pass ends cleanly when the part is the
last part, or when the timestamp equals the budget and the tag is a video
keyframe, or when the timestamp strictly exceeds the budget (then with
the off-keyframe info message); but when the timestamp merely equals the
budget on a non-last part and the tag is not a video keyframe, the pass
continues. -/
theorem c2_amended (lp : Bool) (e : ℚ) (s : PS) (t : Tag)
    (hff : s.found_first_tag = true) (hih : t.is_header = Except.ok none)
    (hd : s.duration ≤ t.timestamp) :
    (lp = true → ∃ infos, rts_step false lp e s t = Except.ok (StepRes.halt s infos)) ∧
    (lp = false → t.timestamp = s.duration → t.is_video_keyframe = Except.ok true →
      rts_step false lp e s t = Except.ok (StepRes.halt s [])) ∧
    (lp = false → s.duration < t.timestamp →
      rts_step false lp e s t = Except.ok (StepRes.halt s [Msg.notOnKeyframe])) ∧
    (lp = false → t.timestamp = s.duration → t.is_video_keyframe = Except.ok false →
      ∃ s' out, rts_step false lp e s t = Except.ok (StepRes.go s' out [])) := by
  obtain ⟨b, hh⟩ := handled_tag_ok s t none hih
  have hf : first_tag_update false s t b = Except.ok s :=
    first_tag_update_inert false s t b hff none hih
  refine ⟨?_, ?_, ?_, ?_⟩
  · intro hlp
    subst hlp
    by_cases hEOS : t.timestamp = 0 ∧ t.kind = Tag.END
    · have hec : end_check false true e s t =
          Except.ok (some [Msg.eos (e - ((max s.lastA s.lastV : Int) : ℚ))]) := by
        rw [end_check]
        simp [hih, hEOS.1, hEOS.2]
      refine ⟨[Msg.eos (e - ((max s.lastA s.lastV : Int) : ℚ))], ?_⟩
      rw [rts_step]
      simp only [hh, hf, hec]
    · obtain ⟨bk, hbk⟩ := is_video_keyframe_ok t hih
      have hec : end_check false true e s t = Except.ok (some []) := by
        rw [end_check]
        simp only [Bool.false_eq_true, if_false, hih, and_true]
        rw [if_neg hEOS, if_pos hd]
        by_cases hts : t.timestamp = s.duration
        · rw [if_pos hts, hbk]
          simp
        · rw [if_neg hts]
          simp
      refine ⟨[], ?_⟩
      rw [rts_step]
      simp only [hh, hf, hec]
  · intro hlp hts hkf
    subst hlp
    have hec : end_check false false e s t = Except.ok (some []) := by
      rw [end_check]
      simp only [Bool.false_eq_true, if_false, hih, and_false]
      rw [if_pos hd, if_pos hts, hkf]
      simp
    rw [rts_step]
    simp only [hh, hf, hec]
  · intro hlp hlt
    subst hlp
    have hts : ¬(t.timestamp = s.duration) := by omega
    have hec : end_check false false e s t = Except.ok (some [Msg.notOnKeyframe]) := by
      rw [end_check]
      simp only [Bool.false_eq_true, if_false, hih, and_false]
      rw [if_pos hd, if_neg hts]
      simp [hlt]
    rw [rts_step]
    simp only [hh, hf, hec]
  · intro hlp hts hkf
    subst hlp
    have hnlt : ¬(s.duration < t.timestamp) := by omega
    have hec : end_check false false e s t = Except.ok none := by
      rw [end_check]
      simp only [Bool.false_eq_true, if_false, hih, and_false]
      rw [if_pos hd, if_pos hts, hkf]
      simp [hnlt]
    cases hy : yield_update s t b with
    | error e0 =>
      exfalso
      rw [yield_update] at hy
      cases b with
      | false => simp at hy
      | true => rw [if_pos rfl, hih] at hy; cases hy
    | ok p =>
      obtain ⟨s2, out⟩ := p
      refine ⟨s2, out, ?_⟩
      rw [rts_step]
      simp only [hh, hf, hec, hy]

/-- C2 amended witness: the amended behaviour applied at the concrete
budget-reaching audio tag. -/
theorem c2_amended_witness :
    ∃ s' out, rts_step false false 100 c2state c2tag =
      Except.ok (StepRes.go s' out []) := by
  have h := c2_amended false 100 c2state c2tag (by decide) rfl (by decide)
  exact h.2.2.2 rfl (by decide) rfl

/-- Evaluation of the concrete C8 fresh pass: pyRound is evaluated by
norm_num, after which the run computes. -/
theorem c8run_eval :
    fresh_pass false false false 5 1000 [c8tag] = Except.ok c8run := by
  have h1 : pyRound 5 = 5 := by norm_num [pyRound]
  simp only [fresh_pass, h1]
  have h2 : pyRound (1000 - ((5 : Int) : ℚ)) = 995 := by norm_num [pyRound]
  rw [h2]
  rfl

/-- C8 counterexample: in the concrete fresh pass the first non-header
media tag read from the stream carries on-wire timestamp 7, yet the
recorded real_offset is the timeBase-derived 5; the two differ, so
real_offset is not the first tag's absolute on-wire timestamp. -/
theorem c8_counterexample :
    first_media_ts [c8tag] = some 7 ∧
    (fresh_pass false false false 5 1000 [c8tag]).map
      (fun r => r.state.real_offset) = Except.ok (some 5) ∧
    (5 : ℚ) ≠ 7 := by
  refine ⟨rfl, ?_, by norm_num⟩
  rw [c8run_eval]
  rfl

/-- C8 amended: in a fresh (non-resume) download pass the recorded
real_offset is the timeBase value taken from the second metadata tag
(times 1000), fixed at entry of the pass and never overwritten in
download mode — not the timestamp of the first media tag read. -/
theorem c8_amended (lp hA hV : Bool) (tb e : ℚ) (tags : List Tag)
    (r : RunRes) (h : fresh_pass lp hA hV tb e tags = Except.ok r) :
    r.state.real_offset = some tb := by
  simp only [fresh_pass] at h
  exact rts_run_real lp e tags _ r h

/-- C8 amended witness: the amended statement applied at the concrete
fresh pass. -/
theorem c8_amended_witness :
    fresh_pass false false false 5 1000 [c8tag] = Except.ok c8run ∧
    c8run.state.real_offset = some 5 :=
  ⟨c8run_eval, c8_amended false false false 5 1000 [c8tag] c8run c8run_eval⟩

/-- C10: a tag whose body holds fewer than two bytes drives the
sequence-header test into its error branch (body[1] is out of range), and
a download-mode generator step on such a tag propagates the error instead
of reaching a drop-or-handle decision; get_next_tag produces such a tag
from a declared body size of zero. -/
theorem c10_short_body (t : Tag) (hshort : t.body.length < 2) (lp : Bool)
    (e : ℚ) (s : PS) :
    t.is_header = Except.error () ∧
    rts_step false lp e s t = Except.error () ∧
    get_next_tag c10bytes = some (c10tag, []) ∧ c10tag.body.length < 2 := by
  have hih : t.is_header = Except.error () := by
    rw [Tag.is_header]
    cases hb : t.body with
    | nil => rfl
    | cons b0 rest =>
      cases rest with
      | nil => rfl
      | cons b1 r2 =>
        exfalso
        rw [hb] at hshort
        simp only [List.length_cons] at hshort
        omega
  refine ⟨hih, ?_, rfl, by decide⟩
  have hec : end_check false lp e s t = Except.error () := by
    rw [end_check]
    simp only [Bool.false_eq_true, if_false, hih]
  by_cases hk : t.kind = Tag.AUDIO ∨ t.kind = Tag.VIDEO
  · have hh : handled_tag s t = Except.error () := by
      rw [handled_tag, if_pos hk, hih]
    rw [rts_step]
    simp only [hh]
  · have hh : handled_tag s t = Except.ok false := by
      rw [handled_tag, if_neg hk]
    have hf : first_tag_update false s t false = Except.ok s := by
      rw [first_tag_update]
      simp
    rw [rts_step]
    simp only [hh, hf, hec]

/-- C10 witness: the short-body error evaluated at the tag get_next_tag
parses from the zero-size byte stream. -/
theorem c10_short_body_witness :
    c10tag.body.length < 2 ∧ c10tag.is_header = Except.error () ∧
    rts_step false false 0 c10state c10tag = Except.error () :=
  ⟨by decide, (c10_short_body c10tag (by decide) false 0 c10state).1,
    (c10_short_body c10tag (by decide) false 0 c10state).2.1⟩

/-- C9: on the resume-analysis path where part 0 finds the duration key
absent, the worker puts a status = FAIL message on its queue and then
keeps going: the very next thing save_stream_part does is emit the
need_start message, so the status message is not terminal and the claim
(and the source's own docstring) is contradicted by the code. -/
theorem c9_status_not_terminal :
    save_stream_part_intro_fp dbl0 openS0 false c9file =
      Except.ok [WMsg.mkDebug readHeaderStr, WMsg.mkDebug foundTimebaseStr,
        WMsg.mkInfoStatus missingDurationStr Status.FAIL,
        WMsg.mkNeedStart false] ∧
    (WMsg.mkInfoStatus missingDurationStr Status.FAIL).status =
      some Status.FAIL ∧
    (WMsg.mkNeedStart false).status = none :=
  ⟨rfl, rfl, rfl⟩
